import Mathlib

/-!
Verification of the echo_lsp_server repository: a shallow embedding of the
LSP servers (`llmcoder.py`, `echo_lsp_server.py`) and the Content-Length
frame codec (`lsp_stream_io.py`, `lsp_reader.py`), with theorems settling
the specification claims.

Python strings are modelled as `List Char`, byte streams as `List Nat`
(one `Nat` per byte), dictionaries as association lists with Python
insertion-order update semantics, and the asyncio task registry as a list
of task records carrying a cooperative cancellation flag.
-/

abbrev Str := List Char

def str (s : String) : Str := s.data

def lbrace : Char := Char.ofNat 123

def rbrace : Char := Char.ofNat 125

/-- Python `str.strip()` whitespace set: space, \t, \n, \r, \v, \f. -/
def pyIsSpace (c : Char) : Bool :=
  c = ' ' ∨ c = '\t' ∨ c = '\n' ∨ c = '\r' ∨ c = Char.ofNat 11 ∨ c = Char.ofNat 12

/-- Python `str.strip()`: drop leading and trailing whitespace. -/
def pyStrip (s : Str) : Str :=
  ((s.dropWhile pyIsSpace).reverse.dropWhile pyIsSpace).reverse

/-- Python line-break characters recognised by `str.splitlines`. -/
def isLineBreak (c : Char) : Bool :=
  c = '\n' ∨ c = '\r' ∨ c = Char.ofNat 11 ∨ c = Char.ofNat 12 ∨
  c = Char.ofNat 28 ∨ c = Char.ofNat 29 ∨ c = Char.ofNat 30 ∨
  c = Char.ofNat 133 ∨ c = Char.ofNat 8232 ∨ c = Char.ofNat 8233

def splitlinesAux : Str → Str → List Str
  | acc, [] => if acc.isEmpty then [] else [acc.reverse]
  | acc, '\r' :: '\n' :: rest => acc.reverse :: splitlinesAux [] rest
  | acc, c :: rest =>
    if isLineBreak c then acc.reverse :: splitlinesAux [] rest
    else splitlinesAux (c :: acc) rest

/-- Python `str.splitlines()` (keepends=False). -/
def splitlines (s : Str) : List Str := splitlinesAux [] s

/-- Python dict lookup `d[k]` / `d.get(k)` on an insertion-ordered dict. -/
def dictGet {α : Type} : List (Str × α) → Str → Option α
  | [], _ => none
  | (k', v) :: rest, k => if k' = k then some v else dictGet rest k

/-- Python `k in d`. -/
def dictContains {α : Type} (d : List (Str × α)) (k : Str) : Bool :=
  (dictGet d k).isSome

/-- Python `d[k] = v`: replace in place if present, else append (insertion order). -/
def dictSet {α : Type} : List (Str × α) → Str → α → List (Str × α)
  | [], k, v => [(k, v)]
  | (k', v') :: rest, k, v =>
    if k' = k then (k, v) :: rest else (k', v') :: dictSet rest k v

/-- Python `del d[k]` (key assumed present at most once). -/
def dictDel {α : Type} : List (Str × α) → Str → List (Str × α)
  | [], _ => []
  | (k', v') :: rest, k => if k' = k then rest else (k', v') :: dictDel rest k

/-! ## The external completion call (`llmcoder.py`, `query_external_api`)

The outcome of the single `httpx` POST is an input to the model: a status
code with a body text, a transport-level error, or a cancellation delivered
at the await point. -/

inductive HttpResult where
  | response (status : Nat) (text : Str)
  | transportError
  | cancelledDuringCall
deriving DecidableEq

/-- What `query_external_api` returns to its caller: the body text, the
`False` failure sentinel, or a re-raised `CancelledError`. -/
inductive ApiOutcome where
  | success (text : Str)
  | failure
  | cancelledRaise
deriving DecidableEq

/-- `LLMCoder.query_external_api`: non-2xx statuses raise in
`raise_for_status`, caught by the generic handler which returns `False`;
an empty 2xx body is `False` via `response.text or False`; transport
errors return `False`; `CancelledError` is re-raised. -/
def query_external_api : HttpResult → ApiOutcome
  | .response status text =>
    if 200 ≤ status ∧ status < 300 then
      if text.isEmpty then .failure else .success text
    else .failure
  | .transportError => .failure
  | .cancelledDuringCall => .cancelledRaise

/-- The downward loop of `remove_suffix` in `handle_trigger_ghost_text`:
try overlap lengths `i = counter, counter-1, ..., 1` and cut the first
(i.e. longest) leading segment of `suffix` that `text` ends with. -/
def remove_suffixAux (suffix text : Str) : Nat → Str
  | 0 => text
  | i + 1 =>
    if (suffix.take (i + 1)).isSuffixOf text then text.take (text.length - (i + 1))
    else remove_suffixAux suffix text i

/-- `remove_suffix` from `handle_trigger_ghost_text`: trim from the end of
`text` the longest prefix of `suffix` that `text` ends with. -/
def remove_suffix (suffix text : Str) : Str :=
  remove_suffixAux suffix text (min text.length suffix.length)

/-! ## LLMCoder server state and task registry -/

/-- One in-flight ghost-text completion task as created by
`handle_trigger_ghost_text`: the captured URI, line, suffix context and
prompt, plus the cooperative cancellation flag of its `asyncio.Task`. -/
structure GhostTask where
  uri : Str
  line : Int
  suffix : Str
  prompt : Str
  cancelled : Bool
deriving DecidableEq

/-- Payload of the custom `ghostText/virtualText` notification. -/
structure GhostNote where
  uri : Str
  line : Int
  text : Str
deriving DecidableEq

/-- Hover result content (the echoed line and its range end). -/
structure HoverInfo where
  line : Int
  content : Str
deriving DecidableEq

inductive Payload where
  | ack
  | initResult
  | hoverResult (r : Option HoverInfo)
  | nullResult
  | internalError (data : Str)
deriving DecidableEq

/-- A message written to stdout: a JSON-RPC response carrying an id, or a
server-initiated notification. -/
inductive Outgoing where
  | response (id : Int) (p : Payload)
  | ghostNotification (uri : Str) (line : Int) (text : Str)
deriving DecidableEq

structure CoderState where
  running : Bool
  initialized : Bool
  document_store : List (Str × List Str)
  active_tasks : List GhostTask
  project_files : List (Str × Str)
  repo_root : Option Str
deriving DecidableEq

/-- `LLMCoder.cancel_all_tasks`: request cancellation of every tracked
task (all tracked tasks are not yet done) and return the count. -/
def cancel_all_tasks (ts : List GhostTask) : List GhostTask × Nat :=
  (ts.map (fun t => { t with cancelled := true }), ts.length)

/-- `LLMCoder.send_ghost_text`: the `ghostText/virtualText` notification
with the text exactly as passed in. -/
def send_ghost_text (uri : Str) (line : Int) (text : Str) : Outgoing :=
  .ghostNotification uri line text

/-- The body of `ghost_text_task` in `llmcoder.py`, run against the outcome
`res` of its single external call: a cancelled task observes
`CancelledError` at its await point and sends nothing; a `False` result
sends nothing; otherwise the response has `remove_suffix` applied and is
sent unmodified. The `Nat` component counts external API calls made. -/
def ghost_text_task_run (t : GhostTask) (res : HttpResult) : Option Outgoing × Nat :=
  if t.cancelled then (none, 1)
  else
    match query_external_api res with
    | .failure => (none, 1)
    | .cancelledRaise => (none, 1)
    | .success text => (some (send_ghost_text t.uri t.line (remove_suffix t.suffix text)), 1)

/-! ## LLMCoder handlers and dispatcher -/

/-- Python slice `l[a:b]` for non-negative bounds. -/
def pySlice {α : Type} (l : List α) (a b : Nat) : List α := (l.take b).drop a

def PREFIX_CONTEXT_LINES : Nat := 30

def SUFFIX_CONTEXT_LINES : Nat := 30

structure TriggerParams where
  id : Int
  uri : Str
  line : Int
  character : Int
deriving DecidableEq

/-- The FIM prompt assembled by `handle_trigger_ghost_text` (`llmcoder.py`)
for validated `line`/`character` against the current `lines`. -/
def build_full_prompt (lines : List Str) (line character : Nat) : Str :=
  let original := lines.getD line []
  let prefix_lines := pySlice lines (line - PREFIX_CONTEXT_LINES) line
  let suffix_lines := pySlice lines (line + 1) (line + 1 + SUFFIX_CONTEXT_LINES)
  let pfx := (List.intercalate (str "\n") prefix_lines) ++ str "\n" ++ original.take character
  let sfx := original.drop character ++ str "\n" ++ (List.intercalate (str "\n") suffix_lines)
  str "<|fim_prefix|>\n" ++ pfx ++ str "<|fim_suffix|>" ++ sfx ++ str "\n<|fim_middle|>"

/-- The captured suffix context closed over by `remove_suffix`. -/
def build_suffix_context (lines : List Str) (line character : Nat) : Str :=
  let original := lines.getD line []
  let suffix_lines := pySlice lines (line + 1) (line + 1 + SUFFIX_CONTEXT_LINES)
  original.drop character ++ str "\n" ++ (List.intercalate (str "\n") suffix_lines)

/-- `LLMCoder.handle_trigger_ghost_text`: the `ack` response is sent before
any validation; then unknown URI, line out of range, a non-empty task
registry, and character out of range each discard the trigger; otherwise a
new task is created and registered. -/
def handle_trigger_ghost_text (st : CoderState) (p : TriggerParams) :
    CoderState × List Outgoing :=
  let out := [Outgoing.response p.id .ack]
  match dictGet st.document_store p.uri with
  | none => (st, out)
  | some lines =>
    if ¬ (0 ≤ p.line ∧ p.line < (lines.length : Int)) then (st, out)
    else if st.active_tasks.length > 0 then (st, out)
    else
      let original := lines.getD p.line.toNat []
      if ¬ (0 ≤ p.character ∧ p.character ≤ (original.length : Int)) then (st, out)
      else
        let task : GhostTask :=
          { uri := p.uri
            line := p.line
            suffix := build_suffix_context lines p.line.toNat p.character.toNat
            prompt := build_full_prompt lines p.line.toNat p.character.toNat
            cancelled := false }
        ({ st with active_tasks := st.active_tasks ++ [task] }, out)

/-- `LLMCoder.handle_hover`: echoes the addressed line when it exists. -/
def handle_hover (st : CoderState) (id : Int) (uri : Str) (line : Int) :
    CoderState × List Outgoing :=
  let result : Option HoverInfo :=
    match dictGet st.document_store uri with
    | some lines =>
      if 0 ≤ line ∧ line < (lines.length : Int) then
        some { line := line, content := lines.getD line.toNat [] }
      else none
    | none => none
  (st, [Outgoing.response id (.hoverResult result)])

inductive Notif where
  | initialized
  | didOpen (uri : Str) (text : Str)
  | didChange (uri : Str) (text : Str)
  | didClose (uri : Str)
deriving DecidableEq

/-- `LLMCoder.handle_notification`: `didOpen`/`didChange` replace the URI's
entry with `text.splitlines()`; `didChange` additionally cancels all
active tasks (session-wide); `didClose` removes the entry if present and
cancels nothing (its cancellation code is absent). -/
def handle_notification (st : CoderState) : Notif → CoderState
  | .initialized => { st with initialized := true }
  | .didOpen uri text =>
    { st with document_store := dictSet st.document_store uri (splitlines text) }
  | .didChange uri text =>
    let store := dictSet st.document_store uri (splitlines text)
    let ts := (cancel_all_tasks st.active_tasks).1
    { st with document_store := store, active_tasks := ts }
  | .didClose uri =>
    if dictContains st.document_store uri then
      { st with document_store := dictDel st.document_store uri }
    else st

/-- `os.path.basename(os.path.normpath(p))` specialised to forward-slash
paths: the last non-empty `/`-separated component (path normalisation
beyond trailing-slash removal is not modelled; no claim depends on it). -/
def basename_normpath (p : Str) : Str :=
  match (p.splitOn (Char.ofNat 47)).filter (fun s => ¬ s.isEmpty) with
  | [] => p
  | comps => comps.getLastD []

/-- `LLMCoder.handle_project_file`. -/
def handle_project_file (st : CoderState) (path content root : Option Str) : CoderState :=
  match path, content with
  | some path, some content =>
    match root with
    | some root =>
      let rootName := basename_normpath root
      { st with
          repo_root := some rootName
          project_files := dictSet st.project_files (rootName ++ [Char.ofNat 47] ++ path) content }
    | none => st
  | _, _ => st

inductive Msg where
  | initRequest (id : Int)
  | hover (id : Int) (uri : Str) (line : Int)
  | triggerGhostText (id : Int) (uri : Str) (line : Int) (character : Int)
  | notif (n : Notif)
  | cancelGhostText
  | projectFile (path : Option Str) (content : Option Str) (root : Option Str)
  | shutdown (id : Int)
  | exitNotification
  | unknown (id : Option Int) (method : Str)
deriving DecidableEq

/-- `LLMCoder.dispatch_message`. In this server the `shutdown` branch
cancels all tasks but its response send is commented out, and unknown
methods fall through silently. -/
def dispatch_message (st : CoderState) : Msg → CoderState × List Outgoing
  | .initRequest id =>
    ({ st with initialized := true }, [Outgoing.response id .initResult])
  | .hover id uri line => handle_hover st id uri line
  | .triggerGhostText id uri line character =>
    handle_trigger_ghost_text st { id := id, uri := uri, line := line, character := character }
  | .notif n => (handle_notification st n, [])
  | .cancelGhostText =>
    ({ st with active_tasks := (cancel_all_tasks st.active_tasks).1 }, [])
  | .projectFile path content root => (handle_project_file st path content root, [])
  | .shutdown _id =>
    ({ st with active_tasks := (cancel_all_tasks st.active_tasks).1 }, [])
  | .exitNotification => ({ st with running := false }, [])
  | .unknown _ _ => (st, [])

/-! ## EchoLSPServer (`echo_lsp_server.py`)

The second server iteration. Its ghost-text tasks are additionally keyed
by URI and by stringified request id: `add_task` is always called with
both `uri` and `request_id`, so `uri_tasks` and `request_tasks` are the
evident filtrations of `active_tasks` and are modelled as such. -/

namespace Echo

structure EchoTask where
  uri : Str
  line : Int
  original : Str
  request_id : Int
  cancelled : Bool
deriving DecidableEq

structure EchoState where
  running : Bool
  initialized : Bool
  document_store : List (Str × List Str)
  active_tasks : List EchoTask
deriving DecidableEq

/-- `EchoLSPServer.cancel_all_tasks`. -/
def cancel_all_tasks (ts : List EchoTask) : List EchoTask × Nat :=
  (ts.map (fun t => { t with cancelled := true }), ts.length)

/-- `EchoLSPServer.cancel_tasks_for_uri`: cancels only the tasks registered
under `uri` in `uri_tasks`. -/
def cancel_tasks_for_uri (ts : List EchoTask) (uri : Str) : List EchoTask × Nat :=
  (ts.map (fun t => if t.uri = uri then { t with cancelled := true } else t),
   (ts.filter (fun t => t.uri = uri)).length)

/-- `EchoLSPServer.cancel_task_by_request_id`. -/
def cancel_task_by_request_id (ts : List EchoTask) (rid : Int) : List EchoTask :=
  ts.map (fun t => if t.request_id = rid then { t with cancelled := true } else t)

/-- `EchoLSPServer.query_external_api`: simulated call that reverses its
input after a sleep; only cancellation can prevent the result. -/
def query_external_api (input_text : Str) : Str :=
  str "Processed: " ++ input_text.reverse

/-- `EchoLSPServer.send_ghost_text` prefixes the ghost emoji. -/
def send_ghost_text (uri : Str) (line : Int) (text : Str) : Outgoing :=
  .ghostNotification uri line (str "👻 " ++ text)

/-- Body of `ghost_text_task` in `echo_lsp_server.py`: a cancelled task
observes `CancelledError` at its await and sends nothing; otherwise the
simulated API result is sent. -/
def ghost_text_task_run (t : EchoTask) : Option Outgoing :=
  if t.cancelled then none
  else some (send_ghost_text t.uri t.line (query_external_api t.original))

/-- `EchoLSPServer.handle_trigger_ghost_text`: ack first, then validate
URI and line only — no task-registry check and no character check — and
always spawn on success. -/
def handle_trigger_ghost_text (st : EchoState) (id : Int) (uri : Str) (line : Int) :
    EchoState × List Outgoing :=
  let out := [Outgoing.response id .ack]
  match dictGet st.document_store uri with
  | none => (st, out)
  | some lines =>
    if ¬ (0 ≤ line ∧ line < (lines.length : Int)) then (st, out)
    else
      let original := lines.getD line.toNat []
      let task : EchoTask :=
        { uri := uri, line := line, original := original, request_id := id, cancelled := false }
      ({ st with active_tasks := st.active_tasks ++ [task] }, out)

/-- `EchoLSPServer.handle_hover`. -/
def handle_hover (st : EchoState) (id : Int) (uri : Str) (line : Int) :
    EchoState × List Outgoing :=
  let result : Option HoverInfo :=
    match dictGet st.document_store uri with
    | some lines =>
      if 0 ≤ line ∧ line < (lines.length : Int) then
        some { line := line, content := lines.getD line.toNat [] }
      else none
    | none => none
  (st, [Outgoing.response id (.hoverResult result)])

/-- `EchoLSPServer.handle_notification`: document-store updates as in
`llmcoder.py`, but `didChange` and `didClose` cancel per-URI. -/
def handle_notification (st : EchoState) : Notif → EchoState
  | .initialized => { st with initialized := true }
  | .didOpen uri text =>
    { st with document_store := dictSet st.document_store uri (splitlines text) }
  | .didChange uri text =>
    let store := dictSet st.document_store uri (splitlines text)
    let ts := (cancel_tasks_for_uri st.active_tasks uri).1
    { st with document_store := store, active_tasks := ts }
  | .didClose uri =>
    let store :=
      if dictContains st.document_store uri then dictDel st.document_store uri
      else st.document_store
    let ts := (cancel_tasks_for_uri st.active_tasks uri).1
    { st with document_store := store, active_tasks := ts }

/-- `EchoLSPServer.handle_cancel_request`: cancel by request id when the
params carry one, else cancel everything. -/
def handle_cancel_request (st : EchoState) (paramsId : Option Int) : EchoState :=
  match paramsId with
  | some rid => { st with active_tasks := cancel_task_by_request_id st.active_tasks rid }
  | none => { st with active_tasks := (cancel_all_tasks st.active_tasks).1 }

inductive EchoMsg where
  | initRequest (id : Int)
  | hover (id : Int) (uri : Str) (line : Int)
  | triggerGhostText (id : Int) (uri : Str) (line : Int)
  | notif (n : Notif)
  | cancelGhostText (paramsId : Option Int)
  | shutdown (id : Int)
  | exitNotification
  | unknown (id : Option Int) (method : Str)
deriving DecidableEq

/-- `EchoLSPServer.dispatch_message`: unlike `llmcoder.py`, the `shutdown`
branch both cancels all tasks and responds with result `null`. -/
def dispatch_message (st : EchoState) : EchoMsg → EchoState × List Outgoing
  | .initRequest id =>
    ({ st with initialized := true }, [Outgoing.response id .initResult])
  | .hover id uri line => handle_hover st id uri line
  | .triggerGhostText id uri line => handle_trigger_ghost_text st id uri line
  | .notif n => (handle_notification st n, [])
  | .cancelGhostText paramsId => (handle_cancel_request st paramsId, [])
  | .shutdown id =>
    ({ st with active_tasks := (cancel_all_tasks st.active_tasks).1 },
     [Outgoing.response id .nullResult])
  | .exitNotification => ({ st with running := false }, [])
  | .unknown _ _ => (st, [])

end Echo

/-! ## JSON values and `json.dumps` (default options, as used by `send`)

JSON numbers are embedded as integers (the servers' payloads carry only
integers; floating-point literals are outside the embedding and the parser
rejects a fraction or exponent part). Objects carry their members in
insertion order, as Python dicts do. -/

inductive Json where
  | null
  | bool (b : Bool)
  | num (n : Int)
  | str (s : Str)
  | arr (elems : List Json)
  | obj (members : List (Str × Json))

/-- Lowercase hex digit, as produced by Python's `'\u%04x' % n`. -/
def hexDigitChar (n : Nat) : Char :=
  if n < 10 then Char.ofNat (48 + n) else Char.ofNat (87 + n)

def uEscape (n : Nat) : List Char :=
  ['\\', 'u', hexDigitChar (n / 4096 % 16), hexDigitChar (n / 256 % 16),
   hexDigitChar (n / 16 % 16), hexDigitChar (n % 16)]

/-- `json.encoder.py_encode_basestring_ascii` per character: short escapes
for the two specials and five controls, printable ASCII kept, everything
else (including all non-ASCII) as `\uXXXX`, astral characters as a
surrogate pair. -/
def escapeChar (c : Char) : List Char :=
  if c = '"' then ['\\', '"']
  else if c = '\\' then ['\\', '\\']
  else if c = '\n' then ['\\', 'n']
  else if c = '\r' then ['\\', 'r']
  else if c = '\t' then ['\\', 't']
  else if c = Char.ofNat 8 then ['\\', 'b']
  else if c = Char.ofNat 12 then ['\\', 'f']
  else if 32 ≤ c.toNat ∧ c.toNat ≤ 126 then [c]
  else if c.toNat < 65536 then uEscape c.toNat
  else
    uEscape (55296 + (c.toNat - 65536) / 1024) ++ uEscape (56320 + (c.toNat - 65536) % 1024)

def escapeString (s : Str) : List Char :=
  s.foldr (fun c acc => escapeChar c ++ acc) []

def dumpString (s : Str) : List Char := '"' :: escapeString s ++ ['"']

def natToCharsAux : Nat → Nat → List Char → List Char
  | 0, _, acc => acc
  | fuel + 1, n, acc =>
    if n < 10 then Char.ofNat (48 + n) :: acc
    else natToCharsAux fuel (n / 10) (Char.ofNat (48 + n % 10) :: acc)

/-- Decimal rendering of a natural number (the fuel `n + 1` always
suffices since the argument shrinks by a factor of ten per step). -/
def natToChars (n : Nat) : List Char := natToCharsAux (n + 1) n []

/-- Python `str(int)` / `json.dumps` integer rendering. -/
def intToChars (n : Int) : List Char :=
  if n < 0 then '-' :: natToChars n.natAbs else natToChars n.natAbs

mutual

/-- `json.dumps` with default options: separators `", "` and `": "`,
`ensure_ascii=True` (so the result is pure ASCII). -/
def dumps : Json → List Char
  | .null => str "null"
  | .bool true => str "true"
  | .bool false => str "false"
  | .num n => intToChars n
  | .str s => dumpString s
  | .arr [] => str "[]"
  | .arr (x :: xs) => '[' :: (dumps x ++ dumpsElems xs) ++ [']']
  | .obj [] => [lbrace, rbrace]
  | .obj (kv :: kvs) =>
    lbrace :: (dumpString kv.1 ++ str ": " ++ dumps kv.2 ++ dumpsMembers kvs) ++ [rbrace]
termination_by structural j => j

/-- Remaining array elements, each preceded by `", "`. -/
def dumpsElems : List Json → List Char
  | [] => []
  | x :: xs => str ", " ++ dumps x ++ dumpsElems xs
termination_by structural l => l

/-- Remaining object members, each preceded by `", "`. -/
def dumpsMembers : List (Str × Json) → List Char
  | [] => []
  | kv :: kvs => str ", " ++ dumpString kv.1 ++ str ": " ++ dumps kv.2 ++ dumpsMembers kvs
termination_by structural l => l

end

mutual

/-- Well-formedness every Python-side value has by construction: object
keys are duplicate-free at every level (a Python dict cannot hold
duplicate keys). -/
def wellFormed : Json → Bool
  | .null => true
  | .bool _ => true
  | .num _ => true
  | .str _ => true
  | .arr xs => wellFormedList xs
  | .obj kvs => decide ((kvs.map Prod.fst).Nodup) && wellFormedMembers kvs
termination_by structural j => j

def wellFormedList : List Json → Bool
  | [] => true
  | x :: xs => wellFormed x && wellFormedList xs
termination_by structural l => l

def wellFormedMembers : List (Str × Json) → Bool
  | [] => true
  | kv :: kvs => wellFormed kv.2 && wellFormedMembers kvs
termination_by structural l => l

end

mutual

/-- Number of value nodes, counting one per container entry: an upper
bound on the recursion depth the decoder needs. -/
def jsonSize : Json → Nat
  | .null => 1
  | .bool _ => 1
  | .num _ => 1
  | .str _ => 1
  | .arr xs => 1 + jsonSizeList xs
  | .obj kvs => 1 + jsonSizeMembers kvs
termination_by structural j => j

def jsonSizeList : List Json → Nat
  | [] => 0
  | x :: xs => 1 + jsonSize x + jsonSizeList xs
termination_by structural l => l

def jsonSizeMembers : List (Str × Json) → Nat
  | [] => 0
  | kv :: kvs => 1 + jsonSize kv.2 + jsonSizeMembers kvs
termination_by structural l => l

end

/-! ## `json.loads` (default decoder, strict mode)

A recursive-descent model of `json/decoder.py`: `scan_once` on values,
`scanstring` on string bodies, `JSONArray`/`JSONObject` on containers.
The fuel argument bounds recursion depth and is instantiated in `loads`
with more fuel than any input can consume. The decoder rejects what the
embedding cannot represent (floats, NaN/Infinity, lone surrogates). -/

/-- The decoder's WHITESPACE class: space, \t, \n, \r. -/
def isWsJson (c : Char) : Bool :=
  c = ' ' ∨ c = '\t' ∨ c = '\n' ∨ c = '\r'

def skipWs : Str → Str
  | [] => []
  | c :: rest => if isWsJson c then skipWs rest else c :: rest

def parseHexDigit (c : Char) : Option Nat :=
  if 48 ≤ c.toNat ∧ c.toNat ≤ 57 then some (c.toNat - 48)
  else if 97 ≤ c.toNat ∧ c.toNat ≤ 102 then some (c.toNat - 87)
  else if 65 ≤ c.toNat ∧ c.toNat ≤ 70 then some (c.toNat - 55)
  else none

def consFst (c : Char) (p : Str × Str) : Str × Str := (c :: p.1, p.2)

/-- The `\uXXXX` group: four hex digits to a code unit. -/
def parseHex4 (h1 h2 h3 h4 : Char) : Option Nat :=
  match parseHexDigit h1, parseHexDigit h2, parseHexDigit h3, parseHexDigit h4 with
  | some a, some b, some c, some d => some (a * 4096 + b * 256 + c * 16 + d)
  | _, _, _, _ => none

/-- The backslash-escape handling of `scanstring`: given the input just
after a backslash, return the decoded character and the remaining input.
A `\uXXXX` high surrogate must be followed by a `\uXXXX` low surrogate
(a lone surrogate would produce a string the embedding's `Char` cannot
hold, and is rejected). -/
def parseEscape : Str → Option (Char × Str)
  | [] => none
  | e :: rest2 =>
    if e = '"' then some ('"', rest2)
    else if e = '\\' then some ('\\', rest2)
    else if e = '/' then some ('/', rest2)
    else if e = 'b' then some (Char.ofNat 8, rest2)
    else if e = 'f' then some (Char.ofNat 12, rest2)
    else if e = 'n' then some ('\n', rest2)
    else if e = 'r' then some ('\r', rest2)
    else if e = 't' then some ('\t', rest2)
    else if e = 'u' then
      match rest2 with
      | h1 :: h2 :: h3 :: h4 :: rest3 =>
        match parseHex4 h1 h2 h3 h4 with
        | none => none
        | some n =>
          if 55296 ≤ n ∧ n ≤ 56319 then
            match rest3 with
            | e2 :: u2 :: g1 :: g2 :: g3 :: g4 :: rest4 =>
              if e2 = '\\' ∧ u2 = 'u' then
                match parseHex4 g1 g2 g3 g4 with
                | none => none
                | some m =>
                  if 56320 ≤ m ∧ m ≤ 57343 then
                    some (Char.ofNat (65536 + (n - 55296) * 1024 + (m - 56320)), rest4)
                  else none
              else none
            | _ => none
          else if 56320 ≤ n ∧ n ≤ 57343 then none
          else some (Char.ofNat n, rest3)
      | _ => none
    else none

/-- `json.decoder.scanstring` after the opening quote, strict mode,
fuelled (each produced character consumes at least one input character):
collect characters up to the closing quote, decoding backslash escapes
through `parseEscape`; unescaped control characters are rejected. -/
def parseStringBodyAux : Nat → Str → Option (Str × Str)
  | 0, _ => none
  | fuel + 1, input =>
    match input with
    | [] => none
    | c :: rest =>
      if c = '"' then some ([], rest)
      else if c = '\\' then
        match parseEscape rest with
        | none => none
        | some (d, rest2) => (parseStringBodyAux fuel rest2).map (consFst d)
      else if c.toNat < 32 then none
      else (parseStringBodyAux fuel rest).map (consFst c)

def parseStringBody (input : Str) : Option (Str × Str) :=
  parseStringBodyAux (input.length + 1) input

def charsToNatAux (acc : Nat) : Str → Nat
  | [] => acc
  | c :: rest => charsToNatAux (acc * 10 + (c.toNat - 48)) rest

def charsToNat (s : Str) : Nat := charsToNatAux 0 s

/-- ASCII decimal digit (the `\d` / `[0-9]` classes of the scanner's
regexes, on the ASCII inputs that arise here). -/
def isDigitChar (c : Char) : Bool := 48 ≤ c.toNat ∧ c.toNat ≤ 57

/-- The unsigned-integer production `0 | [1-9][0-9]*` of the decoder's
`NUMBER_RE`. -/
def parseNumCore (s : Str) : Option (Nat × Str) :=
  match s with
  | [] => none
  | c :: rest =>
    if c = '0' then some (0, rest)
    else if 49 ≤ c.toNat ∧ c.toNat ≤ 57 then
      some (charsToNat (s.takeWhile isDigitChar), s.dropWhile isDigitChar)
    else none

/-- A fraction or exponent part after the integer core would make the
number a float, which the embedding rejects. -/
def numBoundaryBad (rest : Str) : Bool :=
  match rest with
  | [] => false
  | c :: _ => c = '.' ∨ c = 'e' ∨ c = 'E'

/-- The integer production of the decoder's `NUMBER_RE`
(`-? (0 | [1-9][0-9]*)`). -/
def parseNum (input : Str) : Option (Json × Str) :=
  match input with
  | [] => none
  | c :: rest =>
    if c = '-' then
      match parseNumCore rest with
      | some (n, rest2) =>
        if numBoundaryBad rest2 then none else some (.num (-(n : Int)), rest2)
      | none => none
    else
      match parseNumCore input with
      | some (n, rest2) =>
        if numBoundaryBad rest2 then none else some (.num (n : Int), rest2)
      | none => none

mutual

/-- `scan_once`: dispatch on the first character of a value; the keyword
cases compare four- and five-character slices like the Python scanner's
`s[idx:idx + 4] == 'null'`. -/
def parseVal : Nat → Str → Option (Json × Str)
  | 0, _ => none
  | fuel + 1, input =>
    match input with
    | [] => none
    | c :: rest =>
      if c = '"' then (parseStringBody rest).map (fun p => (.str p.1, p.2))
      else if c = '[' then
        match skipWs rest with
        | [] => none
        | d :: rest2 =>
          if d = ']' then some (.arr [], rest2)
          else (parseElems fuel (d :: rest2)).map (fun p => (.arr p.1, p.2))
      else if c = lbrace then
        match skipWs rest with
        | [] => none
        | d :: rest2 =>
          if d = rbrace then some (.obj [], rest2)
          else (parseMembers fuel (d :: rest2)).map (fun p => (.obj p.1, p.2))
      else if input.take 4 = str "null" then some (.null, input.drop 4)
      else if input.take 4 = str "true" then some (.bool true, input.drop 4)
      else if input.take 5 = str "false" then some (.bool false, input.drop 5)
      else parseNum input

/-- `JSONArray` after the first element position: value, then `]` to close
or `,` (with surrounding whitespace) to continue. -/
def parseElems : Nat → Str → Option (List Json × Str)
  | 0, _ => none
  | fuel + 1, input =>
    match parseVal fuel input with
    | none => none
    | some (v, rest) =>
      match skipWs rest with
      | [] => none
      | c :: rest2 =>
        if c = ']' then some ([v], rest2)
        else if c = ',' then (parseElems fuel (skipWs rest2)).map (fun p => (v :: p.1, p.2))
        else none

/-- `JSONObject` member list: `"key"`, `:`, value, then closing brace or
`,` and the next `"`-opened key. -/
def parseMembers : Nat → Str → Option (List (Str × Json) × Str)
  | 0, _ => none
  | fuel + 1, input =>
    match input with
    | [] => none
    | q :: r =>
      if q = '"' then
        match parseStringBody r with
        | none => none
        | some (k, r2) =>
          match skipWs r2 with
          | [] => none
          | colon :: r3 =>
            if colon = ':' then
              match parseVal fuel (skipWs r3) with
              | none => none
              | some (v, r4) =>
                match skipWs r4 with
                | [] => none
                | c :: r5 =>
                  if c = rbrace then some ([(k, v)], r5)
                  else if c = ',' then
                    (parseMembers fuel (skipWs r5)).map (fun p => ((k, v) :: p.1, p.2))
                  else none
            else none
      else none

end

/-- `json.loads`: skip leading whitespace, scan one value, require only
whitespace to remain. -/
def loads (s : Str) : Option Json :=
  let t := skipWs s
  match parseVal (t.length + 1) t with
  | some (v, rest) => if (skipWs rest).isEmpty then some v else none
  | none => none

/-! ## UTF-8 and the byte-level frame transport
(`lsp_stream_io.py` / `lsp_reader.py`) -/

def utf8EncodeChar (c : Char) : List Nat :=
  let n := c.toNat
  if n < 128 then [n]
  else if n < 2048 then [192 + n / 64, 128 + n % 64]
  else if n < 65536 then [224 + n / 4096, 128 + n / 64 % 64, 128 + n % 64]
  else [240 + n / 262144, 128 + n / 4096 % 64, 128 + n / 64 % 64, 128 + n % 64]

def utf8Encode (s : Str) : List Nat :=
  s.foldr (fun c acc => utf8EncodeChar c ++ acc) []

/-- Continuation byte (`10xxxxxx`). -/
def isCont (b : Nat) : Bool := 128 ≤ b ∧ b < 192

/-- Two-byte sequence: code point and remaining bytes. -/
def utf8Decode2 (b : Nat) (rest : List Nat) : Option (Nat × List Nat) :=
  match rest with
  | b1 :: r => if isCont b1 then some ((b - 192) * 64 + (b1 - 128), r) else none
  | _ => none

/-- Three-byte sequence, rejecting overlong forms and surrogates. -/
def utf8Decode3 (b : Nat) (rest : List Nat) : Option (Nat × List Nat) :=
  match rest with
  | b1 :: b2 :: r =>
    if isCont b1 ∧ isCont b2 ∧ (b = 224 → 160 ≤ b1) ∧ (b = 237 → b1 < 160) then
      some ((b - 224) * 4096 + (b1 - 128) * 64 + (b2 - 128), r)
    else none
  | _ => none

/-- Four-byte sequence, rejecting overlong forms and values above U+10FFFF. -/
def utf8Decode4 (b : Nat) (rest : List Nat) : Option (Nat × List Nat) :=
  match rest with
  | b1 :: b2 :: b3 :: r =>
    if isCont b1 ∧ isCont b2 ∧ isCont b3 ∧ (b = 240 → 144 ≤ b1) ∧ (b = 244 → b1 < 144) then
      some ((b - 240) * 262144 + (b1 - 128) * 4096 + (b2 - 128) * 64 + (b3 - 128), r)
    else none
  | _ => none

/-- Strict UTF-8 decoding as Python's `bytes.decode("utf-8")`, fuelled:
each step consumes at least one byte, so the fuel in `utf8Decode` below
always suffices. -/
def utf8DecodeAux : Nat → List Nat → Option Str
  | 0, _ => none
  | _ + 1, [] => some []
  | fuel + 1, b :: rest =>
    if b < 128 then (utf8DecodeAux fuel rest).map (fun s => Char.ofNat b :: s)
    else if b < 194 then none
    else if b < 224 then
      match utf8Decode2 b rest with
      | some (n, r) => (utf8DecodeAux fuel r).map (fun s => Char.ofNat n :: s)
      | none => none
    else if b < 240 then
      match utf8Decode3 b rest with
      | some (n, r) => (utf8DecodeAux fuel r).map (fun s => Char.ofNat n :: s)
      | none => none
    else if b < 245 then
      match utf8Decode4 b rest with
      | some (n, r) => (utf8DecodeAux fuel r).map (fun s => Char.ofNat n :: s)
      | none => none
    else none

/-- Strict UTF-8 decoding: rejects continuation-byte errors, overlong
forms, surrogates and values above U+10FFFF. -/
def utf8Decode (bs : List Nat) : Option Str := utf8DecodeAux (bs.length + 1) bs

/-- `re.match(r"Content-Length: (\d+)", line)` followed by
`int(match.group(1))`: the literal prefix anchored at the start of the
(stripped) line, then a maximal run of at least one digit; anything after
the digits is ignored by the pattern. -/
def matchContentLength (line : Str) : Option Nat :=
  if line.take 16 = str "Content-Length: " then
    let ds := (line.drop 16).takeWhile isDigitChar
    if ds.isEmpty then none else some (charsToNat ds)
  else none

/-- Result of one `read_message` call on the modelled byte stream.
`endOrMissing` is the single `None` return used both when the stream is
exhausted and when a header block ends without a `Content-Length` header;
the error constructors model the exceptions `read_message` can raise
(propagated to its caller). -/
inductive ReadOutcome where
  | endOrMissing (rest : List Nat)
  | msg (j : Json) (rest : List Nat)
  | decodeError
  | jsonError
  | incompleteBody (expected : Nat) (got : Nat)

/-- The `while True: readline / strip / match` header loop of
`read_message`, fused with `StreamReader.readline` (bytes up to and
including a newline; at end of stream, the remaining bytes). `lineAcc`
holds the bytes of the line being read; the loop breaks at the first line
that strips to empty, and the latest `Content-Length` match wins. -/
def readHeadersAux (acc : Option Nat) (lineAcc : List Nat) :
    List Nat → Option (Option Nat × List Nat)
  | [] =>
    match utf8Decode lineAcc with
    | none => none
    | some chars =>
      let line := pyStrip chars
      if line.isEmpty then some (acc, [])
      else
        match matchContentLength line with
        | some n => some (some n, [])
        | none => some (acc, [])
  | b :: rest =>
    if b = 10 then
      match utf8Decode (lineAcc ++ [10]) with
      | none => none
      | some chars =>
        let line := pyStrip chars
        if line.isEmpty then some (acc, rest)
        else
          match matchContentLength line with
          | some n => readHeadersAux (some n) [] rest
          | none => readHeadersAux acc [] rest
    else readHeadersAux acc (lineAcc ++ [b]) rest

/-- `LSPStreamIO.read_message` (identical in `lsp_reader.py` and inlined in
`echo_lsp_server.py`): read header lines until a blank one, then read
exactly `Content-Length` bytes and parse them as UTF-8 JSON. Returns
`None` — not an error — when no `Content-Length` header was seen. -/
def read_message (stream : List Nat) : ReadOutcome :=
  match readHeadersAux none [] stream with
  | none => .decodeError
  | some (none, rest) => .endOrMissing rest
  | some (some n, rest) =>
    if rest.length < n then .incompleteBody n rest.length
    else
      match utf8Decode (rest.take n) with
      | none => .decodeError
      | some body =>
        match loads body with
        | none => .jsonError
        | some j => .msg j (rest.drop n)

/-- `LSPStreamIO.send`: `json.dumps` the payload and prefix
`Content-Length: <len(content)>\r\n\r\n`, where `len(content)` counts
characters (`ensure_ascii=True` makes this equal the byte length); the
whole message is written through the UTF-8 stdout encoding. -/
def send (payload : Json) : List Nat :=
  let content := dumps payload
  utf8Encode (str "Content-Length: " ++ natToChars content.length ++ str "\r\n\r\n" ++ content)

/-! ## Concrete fixtures used by witnesses and counterexamples -/

def uriA : Str := ['a']

def coderTask0 : GhostTask :=
  { uri := uriA, line := 0, suffix := [], prompt := [], cancelled := false }

def coderSt1 : CoderState :=
  { running := true, initialized := true, document_store := [(uriA, [['x']])],
    active_tasks := [coderTask0], project_files := [], repo_root := none }

def echoTask0 : Echo.EchoTask :=
  { uri := uriA, line := 0, original := ['x'], request_id := 1, cancelled := false }

def echoSt1 : Echo.EchoState :=
  { running := true, initialized := true, document_store := [(uriA, [['x']])],
    active_tasks := [echoTask0] }

/-- The message id an accepted request answers with, for the Echo server's
dispatcher (requests are the methods whose handlers read `message["id"]`). -/
def Echo.requestId : Echo.EchoMsg → Option Int
  | .initRequest id => some id
  | .hover id _ _ => some id
  | .triggerGhostText id _ _ => some id
  | .shutdown id => some id
  | _ => none

/-! # Theorems

First the dictionary lemmas, then the claim theorems with their witnesses
and counterexamples, then the frame-codec development for the round-trip
law. -/

theorem dictGet_dictSet_same {α : Type} (d : List (Str × α)) (k : Str) (v : α) :
    dictGet (dictSet d k v) k = some v := by
  induction d with
  | nil => simp [dictSet, dictGet]
  | cons kv rest ih =>
    obtain ⟨k', v'⟩ := kv
    by_cases h : k' = k <;> simp [dictSet, dictGet, h, ih]

theorem dictGet_dictSet_other {α : Type} (d : List (Str × α)) (k k' : Str) (v : α)
    (hne : k' ≠ k) : dictGet (dictSet d k v) k' = dictGet d k' := by
  have hne' : ¬ k = k' := fun h => hne h.symm
  induction d with
  | nil => simp [dictSet, dictGet, hne']
  | cons kv rest ih =>
    obtain ⟨k0, v0⟩ := kv
    by_cases h : k0 = k
    · subst h
      simp [dictSet, dictGet, hne']
    · simp [dictSet, dictGet, h, ih]

theorem dictGet_eq_none_of_not_mem {α : Type} (d : List (Str × α)) (k : Str)
    (h : k ∉ d.map Prod.fst) : dictGet d k = none := by
  induction d with
  | nil => simp [dictGet]
  | cons kv rest ih =>
    obtain ⟨k0, v0⟩ := kv
    simp only [List.map_cons, List.mem_cons, not_or] at h
    have hk0 : ¬ k0 = k := fun hh => h.1 hh.symm
    simp only [dictGet, if_neg hk0]
    exact ih h.2

theorem dictGet_dictDel_other {α : Type} (d : List (Str × α)) (k k' : Str)
    (hne : k' ≠ k) : dictGet (dictDel d k) k' = dictGet d k' := by
  have hne' : ¬ k = k' := fun h => hne h.symm
  induction d with
  | nil => simp [dictDel]
  | cons kv rest ih =>
    obtain ⟨k0, v0⟩ := kv
    by_cases h : k0 = k
    · subst h
      simp [dictDel, dictGet, hne']
    · simp [dictDel, dictGet, h, ih]

theorem dictGet_dictDel_same {α : Type} (d : List (Str × α)) (k : Str)
    (hnd : (d.map Prod.fst).Nodup) : dictGet (dictDel d k) k = none := by
  induction d with
  | nil => simp [dictDel, dictGet]
  | cons kv rest ih =>
    obtain ⟨k0, v0⟩ := kv
    simp only [List.map_cons, List.nodup_cons] at hnd
    by_cases h : k0 = k
    · subst h
      simp only [dictDel, if_pos rfl]
      exact dictGet_eq_none_of_not_mem rest k0 hnd.1
    · simp only [dictDel, if_neg h, dictGet, if_neg h]
      exact ih hnd.2

/-! ## Helper lemmas on the trigger handlers -/

theorem handle_trigger_outputs_ack (st : CoderState) (p : TriggerParams) :
    (handle_trigger_ghost_text st p).2 = [Outgoing.response p.id .ack] := by
  unfold handle_trigger_ghost_text
  cases dictGet st.document_store p.uri with
  | none => rfl
  | some lines =>
    dsimp only
    split
    · rfl
    · split
      · rfl
      · split
        · rfl
        · rfl

theorem echo_trigger_outputs_ack (st : Echo.EchoState) (id : Int) (uri : Str) (line : Int) :
    (Echo.handle_trigger_ghost_text st id uri line).2 = [Outgoing.response id .ack] := by
  unfold Echo.handle_trigger_ghost_text
  cases dictGet st.document_store uri with
  | none => rfl
  | some lines =>
    by_cases hl : 0 ≤ line ∧ line < (lines.length : Int)
    · simp [hl]
    · simp [hl]

/-- C1 (amended): in `llmcoder.py`, a `custom/triggerGhostText` request that
arrives while the task registry is non-empty is discarded: the server state
(including the registered-task list) is unchanged and only the `ack`
response is emitted; no task is spawned. -/
theorem C1_single_flight_llmcoder (st : CoderState) (p : TriggerParams)
    (h : st.active_tasks ≠ []) :
    handle_trigger_ghost_text st p = (st, [Outgoing.response p.id .ack]) := by
  have hlen : st.active_tasks.length > 0 := List.length_pos.mpr h
  unfold handle_trigger_ghost_text
  cases dictGet st.document_store p.uri with
  | none => rfl
  | some lines =>
    by_cases hl : 0 ≤ p.line ∧ p.line < (lines.length : Int)
    · simp [hl, hlen]
    · simp [hl]

theorem C1_single_flight_llmcoder_witness :
    coderSt1.active_tasks ≠ [] ∧
    handle_trigger_ghost_text coderSt1 { id := 2, uri := uriA, line := 0, character := 0 } =
      (coderSt1, [Outgoing.response 2 .ack]) :=
  ⟨by decide, C1_single_flight_llmcoder coderSt1 _ (by decide)⟩

/-- C1 (counterexample): `echo_lsp_server.py` performs no registry check in
its trigger handler — with one task already tracked, a second
`custom/triggerGhostText` request spawns and registers a second task, so
the claim as stated (over both cited handlers) fails. -/
theorem C1_counterexample_echo_spawns :
    echoSt1.active_tasks.length = 1 ∧
    (Echo.dispatch_message echoSt1 (.triggerGhostText 2 uriA 0)).1.active_tasks.length = 2 := by
  constructor
  · rfl
  · rfl

/-- C2 (counterexample): in `llmcoder.py` a `textDocument/didClose` for the
open document leaves the in-flight task uncancelled — cancellation is not
requested, so the claim that close notifications cancel in-flight tasks
fails on the cited handler. -/
theorem C2_counterexample_didClose_no_cancel :
    (handle_notification coderSt1 (.didClose uriA)).active_tasks = [coderTask0] ∧
    coderTask0.cancelled = false := by
  constructor
  · rfl
  · rfl

/-- C2 (amended): in `llmcoder.py` a `textDocument/didChange` notification
cancels every in-flight task session-wide (every task tracked afterwards
carries the cancellation request), and a cancelled task never delivers a
suggestion notification, whatever its external call returns. -/
theorem C2_didChange_cancels_all (st : CoderState) (uri text : Str) (t : GhostTask)
    (ht : t ∈ (handle_notification st (.didChange uri text)).active_tasks)
    (res : HttpResult) :
    t.cancelled = true ∧ (ghost_text_task_run t res).1 = none := by
  simp only [handle_notification, cancel_all_tasks, List.mem_map] at ht
  obtain ⟨t0, _, rfl⟩ := ht
  exact ⟨rfl, by simp [ghost_text_task_run]⟩

theorem C2_didChange_cancels_all_witness :
    ({ coderTask0 with cancelled := true } : GhostTask) ∈
      (handle_notification coderSt1 (.didChange uriA ['y'])).active_tasks ∧
    ({ coderTask0 with cancelled := true } : GhostTask).cancelled = true ∧
    (ghost_text_task_run { coderTask0 with cancelled := true } .transportError).1 = none := by
  have hm : ({ coderTask0 with cancelled := true } : GhostTask) ∈
      (handle_notification coderSt1 (.didChange uriA ['y'])).active_tasks := by decide
  have := C2_didChange_cancels_all coderSt1 uriA ['y'] _ hm .transportError
  exact ⟨hm, this.1, this.2⟩

/-- C5 (confirmed): when the external call yields an empty body, a non-2xx
status, or a non-cancellation error, `ghost_text_task` emits no suggestion
notification, and the pipeline performs exactly one external call — no
retry. -/
theorem C5_failure_branch (t : GhostTask) (res : HttpResult)
    (hfail : (∃ status text, res = .response status text ∧
                (¬ (200 ≤ status ∧ status < 300) ∨ text = [])) ∨
             res = .transportError) :
    (ghost_text_task_run t res).1 = none ∧ (ghost_text_task_run t res).2 = 1 := by
  have hq : query_external_api res = .failure := by
    rcases hfail with ⟨status, text, rfl, hcond⟩ | rfl
    · rcases hcond with h | rfl
      · simp [query_external_api, h]
      · by_cases h2 : 200 ≤ status ∧ status < 300 <;> simp [query_external_api, h2]
    · rfl
  by_cases hc : t.cancelled <;> simp [ghost_text_task_run, hc, hq]

theorem C5_failure_branch_witness :
    (ghost_text_task_run coderTask0 (.response 500 (str "oops"))).1 = none ∧
    (ghost_text_task_run coderTask0 (.response 500 (str "oops"))).2 = 1 :=
  C5_failure_branch coderTask0 _ (Or.inl ⟨500, str "oops", rfl, Or.inl (by decide)⟩)

theorem remove_suffixAux_spec (suffix text : Str) (n : Nat) :
    (∃ k, 1 ≤ k ∧ k ≤ n ∧ (suffix.take k).isSuffixOf text = true ∧
        remove_suffixAux suffix text n = text.take (text.length - k) ∧
        ∀ j, k < j → j ≤ n → (suffix.take j).isSuffixOf text = false)
    ∨ ((∀ j, 1 ≤ j → j ≤ n → (suffix.take j).isSuffixOf text = false) ∧
        remove_suffixAux suffix text n = text) := by
  induction n with
  | zero =>
    right
    exact ⟨fun j h1 h2 => absurd (le_trans h1 h2) (Nat.not_succ_le_zero 0), rfl⟩
  | succ i ih =>
    by_cases h : (suffix.take (i + 1)).isSuffixOf text = true
    · left
      refine ⟨i + 1, by omega, le_refl _, h, by simp [remove_suffixAux, h], ?_⟩
      intro j hj1 hj2
      exact absurd (lt_of_lt_of_le hj1 hj2) (lt_irrefl _)
    · have h' : (suffix.take (i + 1)).isSuffixOf text = false := by
        cases hx : (suffix.take (i + 1)).isSuffixOf text
        · rfl
        · exact absurd hx h
      have hstep : remove_suffixAux suffix text (i + 1) = remove_suffixAux suffix text i := by
        simp [remove_suffixAux, h']
      rcases ih with ⟨k, hk1, hk2, hk3, hk4, hk5⟩ | ⟨hall, heq⟩
      · left
        refine ⟨k, hk1, by omega, hk3, by rw [hstep]; exact hk4, ?_⟩
        intro j hj1 hj2
        rcases Nat.lt_or_ge j (i + 1) with hlt | hge
        · exact hk5 j hj1 (by omega)
        · have hje : j = i + 1 := by omega
          rw [hje]
          exact h'
      · right
        refine ⟨?_, by rw [hstep]; exact heq⟩
        intro j hj1 hj2
        rcases Nat.lt_or_ge j (i + 1) with hlt | hge
        · exact hall j hj1 (by omega)
        · have hje : j = i + 1 := by omega
          rw [hje]
          exact h'

/-- C7 (confirmed): `remove_suffix` cuts from the end of the response the
longest leading segment of the captured suffix context that the response
ends with, and leaves the response unchanged when no non-empty leading
segment of the suffix context is a suffix of the response. -/
theorem C7_remove_suffix_longest_overlap (suffix text : Str) :
    (∃ k, 1 ≤ k ∧ k ≤ min text.length suffix.length ∧
        (suffix.take k).isSuffixOf text = true ∧
        remove_suffix suffix text = text.take (text.length - k) ∧
        ∀ j, k < j → j ≤ min text.length suffix.length →
          (suffix.take j).isSuffixOf text = false)
    ∨ ((∀ j, 1 ≤ j → j ≤ min text.length suffix.length →
          (suffix.take j).isSuffixOf text = false) ∧
        remove_suffix suffix text = text) := by
  unfold remove_suffix
  exact remove_suffixAux_spec suffix text (min text.length suffix.length)

/-- C8 (counterexample): a successful response containing surrounding
whitespace and a newline is delivered verbatim by `ghost_text_task` /
`send_ghost_text` — neither stripped nor truncated to its first line, so
the claimed post-processing does not exist in the code. -/
theorem C8_counterexample_multiline_unstripped :
    (ghost_text_task_run coderTask0 (.response 200 (str "  a\nb  "))).1 =
      some (Outgoing.ghostNotification uriA 0 (str "  a\nb  ")) ∧
    '\n' ∈ str "  a\nb  " ∧
    pyStrip (str "  a\nb  ") ≠ str "  a\nb  " := by
  refine ⟨by decide, by decide, by decide⟩

/-- C8 (amended): for every successful, non-empty collaborator response the
emitted suggestion text is exactly the raw response with only the
suffix-overlap trim applied — no whitespace stripping and no first-line
truncation happen anywhere between the response and the client. -/
theorem C8_amended_emitted_text_unprocessed (t : GhostTask) (status : Nat) (text : Str)
    (hc : t.cancelled = false) (hs : 200 ≤ status ∧ status < 300) (hne : text ≠ []) :
    (ghost_text_task_run t (.response status text)).1 =
      some (send_ghost_text t.uri t.line (remove_suffix t.suffix text)) := by
  have hie : text.isEmpty = false := by
    cases text
    · exact absurd rfl hne
    · rfl
  simp [ghost_text_task_run, query_external_api, hc, hs, hie]

theorem C8_amended_emitted_text_unprocessed_witness :
    (ghost_text_task_run coderTask0 (.response 200 ['z'])).1 =
      some (send_ghost_text coderTask0.uri coderTask0.line
        (remove_suffix coderTask0.suffix ['z'])) :=
  C8_amended_emitted_text_unprocessed coderTask0 200 ['z'] rfl (by decide) (by decide)

/-- C9 (confirmed): `LLMCoder.handle_trigger_ghost_text` emits exactly one
response — the `ack` bound to the request's id — before any validation,
and a trigger discarded for any of the four reasons (unknown URI, line out
of range, a task already active, character out of range) leaves the task
registry unchanged while still having received that response. -/
theorem C9_trigger_ack_and_discard (st : CoderState) (p : TriggerParams) :
    (handle_trigger_ghost_text st p).2 = [Outgoing.response p.id .ack] ∧
    ((dictGet st.document_store p.uri = none ∨
      ∃ lines, dictGet st.document_store p.uri = some lines ∧
        (¬ (0 ≤ p.line ∧ p.line < (lines.length : Int)) ∨
         st.active_tasks ≠ [] ∨
         ¬ (0 ≤ p.character ∧
            p.character ≤ (((lines.getD p.line.toNat []).length : Int))))) →
      (handle_trigger_ghost_text st p).1.active_tasks = st.active_tasks) := by
  refine ⟨handle_trigger_outputs_ack st p, ?_⟩
  intro hdisc
  unfold handle_trigger_ghost_text
  cases hd : dictGet st.document_store p.uri with
  | none => rfl
  | some lines =>
    dsimp only
    split
    · rfl
    · split
      · rfl
      · split
        · rfl
        · exfalso
          rename_i hnl hnt hnc
          rcases hdisc with hnone | ⟨lines', hsome, hrest⟩
          · rw [hd] at hnone
            exact Option.noConfusion hnone
          · rw [hd] at hsome
            injection hsome with he
            subst he
            rcases hrest with h1 | h2 | h3
            · exact h1 (not_not.mp hnl)
            · exact h2 (List.length_eq_zero.mp (by omega))
            · exact h3 (not_not.mp hnc)

theorem C9_trigger_ack_and_discard_witness :
    (handle_trigger_ghost_text coderSt1
        { id := 3, uri := ['b'], line := 0, character := 0 }).2 =
      [Outgoing.response 3 .ack] ∧
    (handle_trigger_ghost_text coderSt1
        { id := 3, uri := ['b'], line := 0, character := 0 }).1.active_tasks =
      coderSt1.active_tasks := by
  have h := C9_trigger_ack_and_discard coderSt1
    { id := 3, uri := ['b'], line := 0, character := 0 }
  exact ⟨h.1, h.2 (Or.inl (by decide))⟩

/-- C10 (confirmed): in both servers' `handle_notification`, a document
notification for URI `uri` leaves every other URI's document-store entry
unchanged; `didOpen`/`didChange` map `uri` to `splitlines text`, and
`didClose` removes `uri`'s entry (a no-op when absent). -/
theorem C10_notification_frame (st : CoderState) (est : Echo.EchoState)
    (uri text u' : Str) (hne : u' ≠ uri)
    (hnd : (st.document_store.map Prod.fst).Nodup)
    (hnd2 : (est.document_store.map Prod.fst).Nodup) :
    (dictGet (handle_notification st (.didOpen uri text)).document_store u' =
        dictGet st.document_store u' ∧
      dictGet (handle_notification st (.didOpen uri text)).document_store uri =
        some (splitlines text)) ∧
    (dictGet (handle_notification st (.didChange uri text)).document_store u' =
        dictGet st.document_store u' ∧
      dictGet (handle_notification st (.didChange uri text)).document_store uri =
        some (splitlines text)) ∧
    (dictGet (handle_notification st (.didClose uri)).document_store u' =
        dictGet st.document_store u' ∧
      dictGet (handle_notification st (.didClose uri)).document_store uri = none) ∧
    (dictGet (Echo.handle_notification est (.didOpen uri text)).document_store u' =
        dictGet est.document_store u' ∧
      dictGet (Echo.handle_notification est (.didOpen uri text)).document_store uri =
        some (splitlines text)) ∧
    (dictGet (Echo.handle_notification est (.didChange uri text)).document_store u' =
        dictGet est.document_store u' ∧
      dictGet (Echo.handle_notification est (.didChange uri text)).document_store uri =
        some (splitlines text)) ∧
    (dictGet (Echo.handle_notification est (.didClose uri)).document_store u' =
        dictGet est.document_store u' ∧
      dictGet (Echo.handle_notification est (.didClose uri)).document_store uri = none) := by
  refine ⟨⟨?_, ?_⟩, ⟨?_, ?_⟩, ⟨?_, ?_⟩, ⟨?_, ?_⟩, ⟨?_, ?_⟩, ⟨?_, ?_⟩⟩
  · exact dictGet_dictSet_other _ _ _ _ hne
  · exact dictGet_dictSet_same _ _ _
  · exact dictGet_dictSet_other _ _ _ _ hne
  · exact dictGet_dictSet_same _ _ _
  · show dictGet (if dictContains st.document_store uri
        then { st with document_store := dictDel st.document_store uri }
        else st).document_store u' = dictGet st.document_store u'
    by_cases hc : dictContains st.document_store uri
    · simp only [if_pos hc]
      exact dictGet_dictDel_other _ _ _ hne
    · simp only [if_neg hc]
  · show dictGet (if dictContains st.document_store uri
        then { st with document_store := dictDel st.document_store uri }
        else st).document_store uri = none
    by_cases hc : dictContains st.document_store uri
    · simp only [if_pos hc]
      exact dictGet_dictDel_same _ _ hnd
    · simp only [if_neg hc]
      unfold dictContains at hc
      exact Option.not_isSome_iff_eq_none.mp (by simpa using hc)
  · exact dictGet_dictSet_other _ _ _ _ hne
  · exact dictGet_dictSet_same _ _ _
  · exact dictGet_dictSet_other _ _ _ _ hne
  · exact dictGet_dictSet_same _ _ _
  · show dictGet (if dictContains est.document_store uri
        then dictDel est.document_store uri else est.document_store) u' =
      dictGet est.document_store u'
    by_cases hc : dictContains est.document_store uri
    · simp only [if_pos hc]
      exact dictGet_dictDel_other _ _ _ hne
    · simp only [if_neg hc]
  · show dictGet (if dictContains est.document_store uri
        then dictDel est.document_store uri else est.document_store) uri = none
    by_cases hc : dictContains est.document_store uri
    · simp only [if_pos hc]
      exact dictGet_dictDel_same _ _ hnd2
    · simp only [if_neg hc]
      unfold dictContains at hc
      exact Option.not_isSome_iff_eq_none.mp (by simpa using hc)

theorem C10_notification_frame_witness :
    ['b'] ≠ uriA ∧
    dictGet (handle_notification coderSt1 (.didClose uriA)).document_store ['b'] =
      dictGet coderSt1.document_store ['b'] ∧
    dictGet (handle_notification coderSt1 (.didClose uriA)).document_store uriA = none := by
  have h := C10_notification_frame coderSt1 echoSt1 uriA ['y'] ['b']
    (by decide) (by decide) (by decide)
  exact ⟨by decide, h.2.2.1.1, h.2.2.1.2⟩

/-- C6 (counterexample): `LLMCoder.dispatch_message` handles the `shutdown`
request (cancelling all tasks) but sends no response at all — its response
send is absent — so "every accepted request produces exactly one response"
fails on the cited dispatcher. -/
theorem C6_counterexample_llmcoder_shutdown_silent :
    (dispatch_message coderSt1 (.shutdown 7)).2 = [] := rfl

/-- C6 (amended): in `echo_lsp_server.py` every accepted request-method
message (initialize, hover, triggerGhostText, shutdown) produces exactly
one response, bound to its id, and `shutdown` additionally cancels all
tasks and responds with result `null`; in `llmcoder.py` `shutdown` cancels
all tasks but produces no response. -/
theorem C6_amended_dispatcher_responses (est : Echo.EchoState) (st : CoderState)
    (m : Echo.EchoMsg) (id : Int) (hid : Echo.requestId m = some id) :
    (∃ p, (Echo.dispatch_message est m).2 = [Outgoing.response id p]) ∧
    ((Echo.dispatch_message est (.shutdown id)).2 =
        [Outgoing.response id .nullResult] ∧
      ∀ t ∈ (Echo.dispatch_message est (.shutdown id)).1.active_tasks,
        t.cancelled = true) ∧
    ((dispatch_message st (.shutdown id)).2 = [] ∧
      ∀ t ∈ (dispatch_message st (.shutdown id)).1.active_tasks,
        t.cancelled = true) := by
  refine ⟨?_, ⟨rfl, ?_⟩, ⟨rfl, ?_⟩⟩
  · cases m with
    | initRequest mid =>
      simp only [Echo.requestId, Option.some.injEq] at hid
      subst hid
      exact ⟨.initResult, rfl⟩
    | hover mid uri line =>
      simp only [Echo.requestId, Option.some.injEq] at hid
      subst hid
      exact ⟨_, rfl⟩
    | triggerGhostText mid uri line =>
      simp only [Echo.requestId, Option.some.injEq] at hid
      subst hid
      exact ⟨.ack, echo_trigger_outputs_ack est mid uri line⟩
    | shutdown mid =>
      simp only [Echo.requestId, Option.some.injEq] at hid
      subst hid
      exact ⟨.nullResult, rfl⟩
    | notif n => simp [Echo.requestId] at hid
    | cancelGhostText pid => simp [Echo.requestId] at hid
    | exitNotification => simp [Echo.requestId] at hid
    | unknown i meth => simp [Echo.requestId] at hid
  · intro t htm
    simp only [Echo.dispatch_message, Echo.cancel_all_tasks, List.mem_map] at htm
    obtain ⟨t0, _, rfl⟩ := htm
    rfl
  · intro t htm
    simp only [dispatch_message, cancel_all_tasks, List.mem_map] at htm
    obtain ⟨t0, _, rfl⟩ := htm
    rfl

theorem C6_amended_dispatcher_responses_witness :
    (∃ p, (Echo.dispatch_message echoSt1 (.hover 3 uriA 0)).2 =
        [Outgoing.response 3 p]) ∧
    ((Echo.dispatch_message echoSt1 (.shutdown 3)).2 =
        [Outgoing.response 3 .nullResult] ∧
      ∀ t ∈ (Echo.dispatch_message echoSt1 (.shutdown 3)).1.active_tasks,
        t.cancelled = true) ∧
    ((dispatch_message coderSt1 (.shutdown 3)).2 = [] ∧
      ∀ t ∈ (dispatch_message coderSt1 (.shutdown 3)).1.active_tasks,
        t.cancelled = true) :=
  C6_amended_dispatcher_responses echoSt1 coderSt1 (.hover 3 uriA 0) 3 rfl

/-! ## Character and UTF-8 lemmas -/

theorem toNat_ofNat_valid (n : Nat) (h : n.isValidChar) : (Char.ofNat n).toNat = n := by
  unfold Char.ofNat
  rw [dif_pos h]
  unfold Char.ofNatAux Char.toNat
  simp [UInt32.toNat, BitVec.toNat_ofNatLt]

theorem toNat_ofNat_small (n : Nat) (h : n < 55296) : (Char.ofNat n).toNat = n :=
  toNat_ofNat_valid n (Or.inl h)

theorem char_toNat_valid (c : Char) :
    c.toNat < 55296 ∨ (57343 < c.toNat ∧ c.toNat < 1114112) := by
  have h := c.valid
  unfold isValidChar at h
  rcases h with h | ⟨h1, h2⟩
  · left
    exact h
  · right
    exact ⟨h1, h2⟩

theorem char_ne_of_toNat_ne {a b : Char} (h : a.toNat ≠ b.toNat) : a ≠ b :=
  fun he => h (he ▸ rfl)

theorem utf8EncodeChar_ascii (c : Char) (h : c.toNat < 128) :
    utf8EncodeChar c = [c.toNat] := by
  unfold utf8EncodeChar
  dsimp only
  rw [if_pos h]

theorem utf8Encode_ascii (s : Str) (h : ∀ c ∈ s, c.toNat < 128) :
    utf8Encode s = s.map Char.toNat := by
  induction s with
  | nil => rfl
  | cons c rest ih =>
    have hc := h c (List.mem_cons_self c rest)
    have hrest : ∀ c ∈ rest, c.toNat < 128 := fun x hx => h x (List.mem_cons_of_mem c hx)
    show utf8EncodeChar c ++ utf8Encode rest = c.toNat :: rest.map Char.toNat
    rw [utf8EncodeChar_ascii c hc, ih hrest]
    rfl

theorem utf8DecodeAux_ascii (s : Str) (fuel : Nat) (h : ∀ c ∈ s, c.toNat < 128)
    (hf : s.length < fuel) :
    utf8DecodeAux fuel (s.map Char.toNat) = some s := by
  induction s generalizing fuel with
  | nil =>
    cases fuel with
    | zero => omega
    | succ f => rfl
  | cons c rest ih =>
    cases fuel with
    | zero => omega
    | succ f =>
      have hc := h c (List.mem_cons_self c rest)
      have hrest : ∀ x ∈ rest, x.toNat < 128 := fun x hx => h x (List.mem_cons_of_mem c hx)
      show utf8DecodeAux (f + 1) (c.toNat :: rest.map Char.toNat) = some (c :: rest)
      rw [utf8DecodeAux, if_pos hc, ih f hrest (by simpa using hf), Char.ofNat_toNat c]
      rfl

theorem utf8Decode_ascii (s : Str) (h : ∀ c ∈ s, c.toNat < 128) :
    utf8Decode (s.map Char.toNat) = some s := by
  show utf8DecodeAux ((s.map Char.toNat).length + 1) (s.map Char.toNat) = some s
  rw [List.length_map]
  exact utf8DecodeAux_ascii s (s.length + 1) h (by omega)

/-! ## Decimal rendering and parsing lemmas -/

theorem natToCharsAux_fuel (n : Nat) : ∀ (fuel fuel' : Nat) (acc : List Char),
    n < fuel → n < fuel' → natToCharsAux fuel n acc = natToCharsAux fuel' n acc := by
  induction n using Nat.strong_induction_on with
  | _ n ih =>
    intro fuel fuel' acc h h'
    match fuel, fuel' with
    | f + 1, f' + 1 =>
      by_cases h10 : n < 10
      · rw [natToCharsAux, natToCharsAux, if_pos h10, if_pos h10]
      · rw [natToCharsAux, natToCharsAux, if_neg h10, if_neg h10]
        exact ih (n / 10) (by omega) f f' _ (by omega) (by omega)

theorem natToCharsAux_append (n : Nat) : ∀ (fuel : Nat) (acc : List Char),
    n < fuel → natToCharsAux fuel n acc = natToCharsAux fuel n [] ++ acc := by
  induction n using Nat.strong_induction_on with
  | _ n ih =>
    intro fuel acc h
    match fuel with
    | f + 1 =>
      by_cases h10 : n < 10
      · rw [natToCharsAux, natToCharsAux, if_pos h10, if_pos h10]
        rfl
      · rw [natToCharsAux, natToCharsAux, if_neg h10, if_neg h10]
        rw [ih (n / 10) (by omega) f _ (by omega),
            ih (n / 10) (by omega) f [Char.ofNat (48 + n % 10)] (by omega)]
        simp

theorem natToChars_small (n : Nat) (h : n < 10) : natToChars n = [Char.ofNat (48 + n)] := by
  show natToCharsAux (n + 1) n [] = _
  rw [natToCharsAux, if_pos h]

theorem natToChars_step (n : Nat) (h : 10 ≤ n) :
    natToChars n = natToChars (n / 10) ++ [Char.ofNat (48 + n % 10)] := by
  show natToCharsAux (n + 1) n [] = natToCharsAux (n / 10 + 1) (n / 10) [] ++ _
  rw [natToCharsAux, if_neg (by omega)]
  rw [natToCharsAux_fuel (n / 10) n (n / 10 + 1) _ (by omega) (by omega)]
  rw [natToCharsAux_append (n / 10) (n / 10 + 1) _ (by omega)]

theorem natToChars_all_digits (n : Nat) :
    ∀ d ∈ natToChars n, 48 ≤ d.toNat ∧ d.toNat ≤ 57 := by
  induction n using Nat.strong_induction_on with
  | _ n ih =>
    by_cases h10 : n < 10
    · rw [natToChars_small n h10]
      intro d hd
      simp only [List.mem_singleton] at hd
      subst hd
      rw [toNat_ofNat_small _ (by omega)]
      omega
    · rw [natToChars_step n (by omega)]
      intro d hd
      rcases List.mem_append.mp hd with h1 | h2
      · exact ih (n / 10) (by omega) d h1
      · simp only [List.mem_singleton] at h2
        subst h2
        rw [toNat_ofNat_small _ (by omega)]
        omega

theorem natToChars_ne_nil (n : Nat) : natToChars n ≠ [] := by
  by_cases h10 : n < 10
  · rw [natToChars_small n h10]
    exact List.cons_ne_nil _ _
  · rw [natToChars_step n (by omega)]
    simp

theorem natToChars_head_pos (n : Nat) (h : 1 ≤ n) :
    ∃ c t, natToChars n = c :: t ∧ 49 ≤ c.toNat ∧ c.toNat ≤ 57 := by
  induction n using Nat.strong_induction_on with
  | _ n ih =>
    by_cases h10 : n < 10
    · refine ⟨Char.ofNat (48 + n), [], natToChars_small n h10, ?_, ?_⟩
      · rw [toNat_ofNat_small _ (by omega)]
        omega
      · rw [toNat_ofNat_small _ (by omega)]
        omega
    · obtain ⟨c, t, heq, hlo, hhi⟩ := ih (n / 10) (by omega) (by omega)
      refine ⟨c, t ++ [Char.ofNat (48 + n % 10)], ?_, hlo, hhi⟩
      rw [natToChars_step n (by omega), heq]
      rfl

theorem charsToNatAux_append (a : Nat) (xs ys : Str) :
    charsToNatAux a (xs ++ ys) = charsToNatAux (charsToNatAux a xs) ys := by
  induction xs generalizing a with
  | nil => rfl
  | cons c t ih =>
    show charsToNatAux (a * 10 + (c.toNat - 48)) (t ++ ys) = _
    rw [ih]
    rfl

theorem charsToNat_natToChars (n : Nat) : charsToNat (natToChars n) = n := by
  induction n using Nat.strong_induction_on with
  | _ n ih =>
    by_cases h10 : n < 10
    · rw [natToChars_small n h10]
      show 0 * 10 + ((Char.ofNat (48 + n)).toNat - 48) = n
      rw [toNat_ofNat_small _ (by omega)]
      omega
    · rw [natToChars_step n (by omega)]
      unfold charsToNat
      rw [charsToNatAux_append]
      show charsToNatAux (charsToNat (natToChars (n / 10))) _ = n
      rw [ih (n / 10) (by omega)]
      show n / 10 * 10 + ((Char.ofNat (48 + n % 10)).toNat - 48) = n
      rw [toNat_ofNat_small _ (by omega)]
      omega

theorem takeWhile_eq_self_of_all {α : Type} (p : α → Bool) (l : List α)
    (h : ∀ x ∈ l, p x = true) : l.takeWhile p = l := by
  induction l with
  | nil => rfl
  | cons c t ih =>
    rw [List.takeWhile_cons, h c (List.mem_cons_self c t)]
    rw [if_pos rfl, ih (fun x hx => h x (List.mem_cons_of_mem c hx))]

theorem takeWhile_append_of_all {α : Type} (p : α → Bool) (xs ys : List α)
    (hall : ∀ x ∈ xs, p x = true)
    (hhd : ∀ c, ys.head? = some c → p c = false) :
    (xs ++ ys).takeWhile p = xs ∧ (xs ++ ys).dropWhile p = ys := by
  induction xs with
  | nil =>
    cases ys with
    | nil => exact ⟨rfl, rfl⟩
    | cons c t =>
      have hc := hhd c rfl
      constructor
      · rw [List.nil_append, List.takeWhile_cons, hc]
        rfl
      · rw [List.nil_append, List.dropWhile_cons, hc]
        rfl
  | cons x xs ih =>
    have hx := hall x (List.mem_cons_self x xs)
    obtain ⟨ht, hd⟩ := ih (fun y hy => hall y (List.mem_cons_of_mem x hy)) 
    constructor
    · rw [List.cons_append, List.takeWhile_cons, hx, if_pos rfl, ht]
    · rw [List.cons_append, List.dropWhile_cons, hx, if_pos rfl, hd]

theorem matchContentLength_header (n : Nat) :
    matchContentLength (str "Content-Length: " ++ natToChars n) = some n := by
  unfold matchContentLength
  have h16 : (str "Content-Length: ").length = 16 := rfl
  rw [show (16 : Nat) = (str "Content-Length: ").length from rfl]
  rw [List.take_left, List.drop_left, if_pos rfl]
  rw [takeWhile_eq_self_of_all isDigitChar (natToChars n) ?hall]
  case hall =>
    intro d hd
    have := natToChars_all_digits n d hd
    simp only [isDigitChar, decide_eq_true_eq]
    omega
  rw [if_neg ?hne]
  case hne =>
    simp only [List.isEmpty_iff]
    exact natToChars_ne_nil n
  rw [charsToNat_natToChars n]

theorem natToChars_head_digit (m : Nat) :
    ∃ c t, natToChars m = c :: t ∧ 48 ≤ c.toNat ∧ c.toNat ≤ 57 := by
  cases hm : natToChars m with
  | nil => exact absurd hm (natToChars_ne_nil m)
  | cons c t =>
    have hd := natToChars_all_digits m c (hm ▸ List.mem_cons_self c t)
    exact ⟨c, t, rfl, hd.1, hd.2⟩

theorem numBoundaryBad_false (rest : Str)
    (hhd : ∀ c, rest.head? = some c → c ≠ '.' ∧ c ≠ 'e' ∧ c ≠ 'E') :
    numBoundaryBad rest = false := by
  cases rest with
  | nil => rfl
  | cons c t =>
    obtain ⟨h1, h2, h3⟩ := hhd c rfl
    simp [numBoundaryBad, h1, h2, h3]

theorem parseNumCore_natToChars (m : Nat) (rest : Str)
    (hhd : ∀ c, rest.head? = some c → isDigitChar c = false) :
    parseNumCore (natToChars m ++ rest) = some (m, rest) := by
  have hsplit := takeWhile_append_of_all isDigitChar (natToChars m) rest
    (fun d hd => by
      have := natToChars_all_digits m d hd
      simp only [isDigitChar, decide_eq_true_eq]
      omega)
    hhd
  by_cases h0 : m = 0
  · subst h0
    rw [show natToChars 0 = ['0'] from by decide]
    show parseNumCore ('0' :: rest) = some (0, rest)
    unfold parseNumCore
    dsimp only
    rw [if_pos rfl]
  · obtain ⟨c, t, heq, hlo, hhi⟩ := natToChars_head_pos m (by omega)
    rw [heq]
    rw [heq] at hsplit
    show parseNumCore (c :: (t ++ rest)) = some (m, rest)
    unfold parseNumCore
    dsimp only
    rw [if_neg (char_ne_of_toNat_ne (show c.toNat ≠ 48 by omega))]
    rw [if_pos ⟨hlo, hhi⟩]
    rw [show c :: (t ++ rest) = (c :: t) ++ rest from rfl, hsplit.1, hsplit.2]
    rw [← heq, charsToNat_natToChars m]

theorem parseNum_intToChars (n : Int) (rest : Str)
    (hhd : ∀ c, rest.head? = some c →
      isDigitChar c = false ∧ c ≠ '.' ∧ c ≠ 'e' ∧ c ≠ 'E') :
    parseNum (intToChars n ++ rest) = some (.num n, rest) := by
  have hbound := numBoundaryBad_false rest (fun c hc => (hhd c hc).2)
  have hcore := parseNumCore_natToChars n.natAbs rest (fun c hc => (hhd c hc).1)
  unfold intToChars
  by_cases hneg : n < 0
  · rw [if_pos hneg]
    show parseNum ('-' :: (natToChars n.natAbs ++ rest)) = _
    unfold parseNum
    dsimp only
    rw [if_pos rfl, hcore]
    dsimp only
    rw [hbound]
    simp only [Bool.false_eq_true, if_false, Option.some.injEq, Prod.mk.injEq]
    constructor
    · show Json.num (-(n.natAbs : Int)) = Json.num n
      congr 1
      omega
    · trivial
  · rw [if_neg hneg]
    obtain ⟨c, t, heq, hlo, hhi⟩ := natToChars_head_digit n.natAbs
    rw [heq]
    rw [heq] at hcore
    show parseNum (c :: (t ++ rest)) = _
    unfold parseNum
    dsimp only
    rw [if_neg (char_ne_of_toNat_ne (show c.toNat ≠ 45 by omega))]
    rw [show c :: (t ++ rest) = (c :: t) ++ rest from rfl, hcore]
    dsimp only
    rw [hbound]
    simp only [Bool.false_eq_true, if_false, Option.some.injEq, Prod.mk.injEq]
    constructor
    · show Json.num ((n.natAbs : Int)) = Json.num n
      congr 1
      omega
    · trivial

/-! ## String escaping round trip -/

theorem parseHexDigit_hexDigitChar (k : Nat) (h : k < 16) :
    parseHexDigit (hexDigitChar k) = some k := by
  unfold hexDigitChar parseHexDigit
  by_cases h10 : k < 10
  · rw [if_pos h10]
    have ht : (Char.ofNat (48 + k)).toNat = 48 + k := toNat_ofNat_small _ (by omega)
    rw [ht, if_pos (by omega)]
    congr 1
    omega
  · rw [if_neg h10]
    have ht : (Char.ofNat (87 + k)).toNat = 87 + k := toNat_ofNat_small _ (by omega)
    rw [ht, if_neg (by omega), if_pos (by omega)]
    congr 1
    omega

theorem parseHex4_uEscape (n : Nat) (h : n < 65536) :
    parseHex4 (hexDigitChar (n / 4096 % 16)) (hexDigitChar (n / 256 % 16))
      (hexDigitChar (n / 16 % 16)) (hexDigitChar (n % 16)) = some n := by
  unfold parseHex4
  rw [parseHexDigit_hexDigitChar _ (by omega), parseHexDigit_hexDigitChar _ (by omega),
      parseHexDigit_hexDigitChar _ (by omega), parseHexDigit_hexDigitChar _ (by omega)]
  dsimp only
  congr 1
  omega

theorem uEscape_eq (n : Nat) :
    uEscape n = '\\' :: 'u' :: [hexDigitChar (n / 4096 % 16), hexDigitChar (n / 256 % 16),
      hexDigitChar (n / 16 % 16), hexDigitChar (n % 16)] := rfl

theorem parseStringBodyAux_cons (fuel : Nat) (c : Char) (rest : Str) :
    parseStringBodyAux (fuel + 1) (c :: rest) =
      if c = '"' then some ([], rest)
      else if c = '\\' then
        match parseEscape rest with
        | none => none
        | some (d, rest2) => (parseStringBodyAux fuel rest2).map (consFst d)
      else if c.toNat < 32 then none
      else (parseStringBodyAux fuel rest).map (consFst c) := rfl

theorem parseEscape_u (h1 h2 h3 h4 : Char) (r : Str) :
    parseEscape ('u' :: h1 :: h2 :: h3 :: h4 :: r) =
      match parseHex4 h1 h2 h3 h4 with
      | none => none
      | some n =>
        if 55296 ≤ n ∧ n ≤ 56319 then
          match r with
          | e2 :: u2 :: g1 :: g2 :: g3 :: g4 :: rest4 =>
            if e2 = '\\' ∧ u2 = 'u' then
              match parseHex4 g1 g2 g3 g4 with
              | none => none
              | some m =>
                if 56320 ≤ m ∧ m ≤ 57343 then
                  some (Char.ofNat (65536 + (n - 55296) * 1024 + (m - 56320)), rest4)
                else none
            else none
          | _ => none
        else if 56320 ≤ n ∧ n ≤ 57343 then none
        else some (Char.ofNat n, r) := rfl

theorem parseEscape_uEscape_bmp (n : Nat) (r : Str) (h : n < 65536)
    (hs : ¬ (55296 ≤ n ∧ n ≤ 57343)) :
    parseEscape ('u' :: hexDigitChar (n / 4096 % 16) :: hexDigitChar (n / 256 % 16) ::
      hexDigitChar (n / 16 % 16) :: hexDigitChar (n % 16) :: r) = some (Char.ofNat n, r) := by
  rw [parseEscape_u, parseHex4_uEscape n h]
  dsimp only
  rw [if_neg (by omega), if_neg (by omega)]

theorem parseEscape_uEscape_astral (n : Nat) (r : Str) (h1 : 65536 ≤ n) (h2 : n < 1114112) :
    parseEscape ('u' ::
      hexDigitChar ((55296 + (n - 65536) / 1024) / 4096 % 16) ::
      hexDigitChar ((55296 + (n - 65536) / 1024) / 256 % 16) ::
      hexDigitChar ((55296 + (n - 65536) / 1024) / 16 % 16) ::
      hexDigitChar ((55296 + (n - 65536) / 1024) % 16) :: ('\\' :: 'u' ::
      hexDigitChar ((56320 + (n - 65536) % 1024) / 4096 % 16) ::
      hexDigitChar ((56320 + (n - 65536) % 1024) / 256 % 16) ::
      hexDigitChar ((56320 + (n - 65536) % 1024) / 16 % 16) ::
      hexDigitChar ((56320 + (n - 65536) % 1024) % 16) :: r)) = some (Char.ofNat n, r) := by
  rw [parseEscape_u, parseHex4_uEscape _ (by omega)]
  dsimp only
  rw [if_pos (by constructor <;> omega), if_pos (by exact ⟨rfl, rfl⟩),
      parseHex4_uEscape _ (by omega)]
  dsimp only
  rw [if_pos (by constructor <;> omega)]
  have harith : 65536 + (55296 + (n - 65536) / 1024 - 55296) * 1024 +
      (56320 + (n - 65536) % 1024 - 56320) = n := by omega
  rw [harith]

theorem parseStringBodyAux_escape (s : Str) : ∀ (fuel : Nat) (rest : Str),
    s.length < fuel →
    parseStringBodyAux fuel (escapeString s ++ '"' :: rest) = some (s, rest) := by
  induction s with
  | nil =>
    intro fuel rest h
    cases fuel with
    | zero => omega
    | succ f =>
      show parseStringBodyAux (f + 1) ('"' :: rest) = some ([], rest)
      rw [parseStringBodyAux_cons, if_pos rfl]
  | cons c s' ih =>
    intro fuel rest h
    cases fuel with
    | zero => omega
    | succ f =>
      have hf : s'.length < f := by
        simp only [List.length_cons] at h
        omega
      show parseStringBodyAux (f + 1) ((escapeChar c ++ escapeString s') ++ '"' :: rest) =
        some (c :: s', rest)
      rw [List.append_assoc]
      unfold escapeChar
      by_cases h1 : c = '"'
      · subst h1
        rw [if_pos rfl]
        show parseStringBodyAux (f + 1) ('\\' :: '"' :: (escapeString s' ++ '"' :: rest)) = _
        rw [parseStringBodyAux_cons, if_neg (by decide), if_pos rfl,
            show parseEscape ('"' :: (escapeString s' ++ '"' :: rest)) =
              some ('"', escapeString s' ++ '"' :: rest) from rfl]
        dsimp only
        rw [ih f rest hf]
        rfl
      rw [if_neg h1]
      by_cases h2 : c = '\\'
      · subst h2
        rw [if_pos rfl]
        show parseStringBodyAux (f + 1) ('\\' :: '\\' :: (escapeString s' ++ '"' :: rest)) = _
        rw [parseStringBodyAux_cons, if_neg (by decide), if_pos rfl,
            show parseEscape ('\\' :: (escapeString s' ++ '"' :: rest)) =
              some ('\\', escapeString s' ++ '"' :: rest) from rfl]
        dsimp only
        rw [ih f rest hf]
        rfl
      rw [if_neg h2]
      by_cases h3 : c = '\n'
      · subst h3
        rw [if_pos rfl]
        show parseStringBodyAux (f + 1) ('\\' :: 'n' :: (escapeString s' ++ '"' :: rest)) = _
        rw [parseStringBodyAux_cons, if_neg (by decide), if_pos rfl,
            show parseEscape ('n' :: (escapeString s' ++ '"' :: rest)) =
              some ('\n', escapeString s' ++ '"' :: rest) from rfl]
        dsimp only
        rw [ih f rest hf]
        rfl
      rw [if_neg h3]
      by_cases h4 : c = '\r'
      · subst h4
        rw [if_pos rfl]
        show parseStringBodyAux (f + 1) ('\\' :: 'r' :: (escapeString s' ++ '"' :: rest)) = _
        rw [parseStringBodyAux_cons, if_neg (by decide), if_pos rfl,
            show parseEscape ('r' :: (escapeString s' ++ '"' :: rest)) =
              some ('\r', escapeString s' ++ '"' :: rest) from rfl]
        dsimp only
        rw [ih f rest hf]
        rfl
      rw [if_neg h4]
      by_cases h5 : c = '\t'
      · subst h5
        rw [if_pos rfl]
        show parseStringBodyAux (f + 1) ('\\' :: 't' :: (escapeString s' ++ '"' :: rest)) = _
        rw [parseStringBodyAux_cons, if_neg (by decide), if_pos rfl,
            show parseEscape ('t' :: (escapeString s' ++ '"' :: rest)) =
              some ('\t', escapeString s' ++ '"' :: rest) from rfl]
        dsimp only
        rw [ih f rest hf]
        rfl
      rw [if_neg h5]
      by_cases h6 : c = Char.ofNat 8
      · subst h6
        rw [if_pos rfl]
        show parseStringBodyAux (f + 1) ('\\' :: 'b' :: (escapeString s' ++ '"' :: rest)) = _
        rw [parseStringBodyAux_cons, if_neg (by decide), if_pos rfl,
            show parseEscape ('b' :: (escapeString s' ++ '"' :: rest)) =
              some (Char.ofNat 8, escapeString s' ++ '"' :: rest) from rfl]
        dsimp only
        rw [ih f rest hf]
        rfl
      rw [if_neg h6]
      by_cases h7 : c = Char.ofNat 12
      · subst h7
        rw [if_pos rfl]
        show parseStringBodyAux (f + 1) ('\\' :: 'f' :: (escapeString s' ++ '"' :: rest)) = _
        rw [parseStringBodyAux_cons, if_neg (by decide), if_pos rfl,
            show parseEscape ('f' :: (escapeString s' ++ '"' :: rest)) =
              some (Char.ofNat 12, escapeString s' ++ '"' :: rest) from rfl]
        dsimp only
        rw [ih f rest hf]
        rfl
      rw [if_neg h7]
      by_cases h8 : 32 ≤ c.toNat ∧ c.toNat ≤ 126
      · rw [if_pos h8]
        show parseStringBodyAux (f + 1) (c :: (escapeString s' ++ '"' :: rest)) = _
        rw [parseStringBodyAux_cons, if_neg h1, if_neg h2, if_neg (by omega)]
        rw [ih f rest hf]
        rfl
      rw [if_neg h8]
      by_cases h9 : c.toNat < 65536
      · rw [if_pos h9, uEscape_eq]
        show parseStringBodyAux (f + 1) ('\\' :: 'u' :: hexDigitChar (c.toNat / 4096 % 16) ::
            hexDigitChar (c.toNat / 256 % 16) :: hexDigitChar (c.toNat / 16 % 16) ::
            hexDigitChar (c.toNat % 16) :: (escapeString s' ++ '"' :: rest)) = _
        have hval := char_toNat_valid c
        rw [parseStringBodyAux_cons, if_neg (by decide), if_pos rfl,
            parseEscape_uEscape_bmp c.toNat _ h9 (by omega)]
        dsimp only
        rw [Char.ofNat_toNat c, ih f rest hf]
        rfl
      · rw [if_neg h9]
        have hval := char_toNat_valid c
        rw [uEscape_eq, uEscape_eq]
        show parseStringBodyAux (f + 1) ('\\' :: 'u' ::
            hexDigitChar ((55296 + (c.toNat - 65536) / 1024) / 4096 % 16) ::
            hexDigitChar ((55296 + (c.toNat - 65536) / 1024) / 256 % 16) ::
            hexDigitChar ((55296 + (c.toNat - 65536) / 1024) / 16 % 16) ::
            hexDigitChar ((55296 + (c.toNat - 65536) / 1024) % 16) :: ('\\' :: 'u' ::
            hexDigitChar ((56320 + (c.toNat - 65536) % 1024) / 4096 % 16) ::
            hexDigitChar ((56320 + (c.toNat - 65536) % 1024) / 256 % 16) ::
            hexDigitChar ((56320 + (c.toNat - 65536) % 1024) / 16 % 16) ::
            hexDigitChar ((56320 + (c.toNat - 65536) % 1024) % 16) ::
            (escapeString s' ++ '"' :: rest))) = _
        rw [parseStringBodyAux_cons, if_neg (by decide), if_pos rfl,
            parseEscape_uEscape_astral c.toNat _ (by omega) (by omega)]
        dsimp only
        rw [Char.ofNat_toNat c, ih f rest hf]
        rfl

theorem escapeChar_length_pos (c : Char) : 1 ≤ (escapeChar c).length := by
  unfold escapeChar
  split_ifs <;> simp [uEscape]

theorem escapeString_length_ge (s : Str) : s.length ≤ (escapeString s).length := by
  induction s with
  | nil => simp [escapeString]
  | cons c t ih =>
    show (c :: t).length ≤ (escapeChar c ++ escapeString t).length
    rw [List.length_append, List.length_cons]
    have := escapeChar_length_pos c
    omega

theorem parseStringBody_escape (s rest : Str) :
    parseStringBody (escapeString s ++ '"' :: rest) = some (s, rest) := by
  unfold parseStringBody
  apply parseStringBodyAux_escape
  have h1 := escapeString_length_ge s
  rw [List.length_append, List.length_cons]
  omega

/-! ## Whitespace skipping -/

theorem skipWs_not_ws (c : Char) (r : Str) (h : isWsJson c = false) :
    skipWs (c :: r) = c :: r := by
  simp [skipWs, h]

theorem skipWs_ws (c : Char) (r : Str) (h : isWsJson c = true) :
    skipWs (c :: r) = skipWs r := by
  simp [skipWs, h]

/-! ## Output shape of `dumps` -/

theorem Json.inductionOn (P : Json → Prop)
    (hnull : P .null) (hbool : ∀ b, P (.bool b)) (hnum : ∀ n, P (.num n))
    (hstr : ∀ s, P (.str s))
    (harr : ∀ xs, (∀ x ∈ xs, P x) → P (.arr xs))
    (hobj : ∀ kvs, (∀ kv ∈ kvs, P kv.2) → P (.obj kvs)) :
    ∀ j, P j := fun j =>
  match j with
  | .null => hnull
  | .bool b => hbool b
  | .num n => hnum n
  | .str s => hstr s
  | .arr xs =>
    harr xs (fun x hx => Json.inductionOn P hnull hbool hnum hstr harr hobj x)
  | .obj kvs =>
    hobj kvs (fun kv hkv => Json.inductionOn P hnull hbool hnum hstr harr hobj kv.2)
termination_by j => sizeOf j
decreasing_by
· have := List.sizeOf_lt_of_mem hx
  simp only [Json.arr.sizeOf_spec]
  omega
· have h1 := List.sizeOf_lt_of_mem hkv
  have h2 : sizeOf kv.2 < sizeOf kv := by
    obtain ⟨a, b⟩ := kv
    simp
  simp only [Json.obj.sizeOf_spec]
  omega

theorem hexDigitChar_printable (k : Nat) (h : k < 16) :
    32 ≤ (hexDigitChar k).toNat ∧ (hexDigitChar k).toNat ≤ 126 := by
  unfold hexDigitChar
  by_cases h10 : k < 10
  · rw [if_pos h10, toNat_ofNat_small _ (by omega)]
    omega
  · rw [if_neg h10, toNat_ofNat_small _ (by omega)]
    omega

theorem uEscape_printable (n : Nat) :
    ∀ c ∈ uEscape n, 32 ≤ c.toNat ∧ c.toNat ≤ 126 := by
  intro c hc
  simp only [uEscape, List.mem_cons, List.not_mem_nil, or_false] at hc
  rcases hc with rfl | rfl | rfl | rfl | rfl | rfl
  · exact ⟨by decide, by decide⟩
  · exact ⟨by decide, by decide⟩
  · exact hexDigitChar_printable _ (by omega)
  · exact hexDigitChar_printable _ (by omega)
  · exact hexDigitChar_printable _ (by omega)
  · exact hexDigitChar_printable _ (by omega)

theorem escapeChar_printable (c : Char) :
    ∀ d ∈ escapeChar c, 32 ≤ d.toNat ∧ d.toNat ≤ 126 := by
  intro d hd
  unfold escapeChar at hd
  split_ifs at hd with h1 h2 h3 h4 h5 h6 h7 h8 h9
  · simp only [List.mem_cons, List.not_mem_nil, or_false] at hd
    rcases hd with rfl | rfl <;> exact ⟨by decide, by decide⟩
  · simp only [List.mem_cons, List.not_mem_nil, or_false] at hd
    rcases hd with rfl | rfl <;> exact ⟨by decide, by decide⟩
  · simp only [List.mem_cons, List.not_mem_nil, or_false] at hd
    rcases hd with rfl | rfl <;> exact ⟨by decide, by decide⟩
  · simp only [List.mem_cons, List.not_mem_nil, or_false] at hd
    rcases hd with rfl | rfl <;> exact ⟨by decide, by decide⟩
  · simp only [List.mem_cons, List.not_mem_nil, or_false] at hd
    rcases hd with rfl | rfl <;> exact ⟨by decide, by decide⟩
  · simp only [List.mem_cons, List.not_mem_nil, or_false] at hd
    rcases hd with rfl | rfl <;> exact ⟨by decide, by decide⟩
  · simp only [List.mem_cons, List.not_mem_nil, or_false] at hd
    rcases hd with rfl | rfl <;> exact ⟨by decide, by decide⟩
  · simp only [List.mem_cons, List.not_mem_nil, or_false] at hd
    subst hd
    exact h8
  · exact uEscape_printable _ d hd
  · rcases List.mem_append.mp hd with h | h
    · exact uEscape_printable _ d h
    · exact uEscape_printable _ d h

theorem escapeString_printable (s : Str) :
    ∀ c ∈ escapeString s, 32 ≤ c.toNat ∧ c.toNat ≤ 126 := by
  induction s with
  | nil =>
    intro c hc
    simp [escapeString] at hc
  | cons x t ih =>
    intro c hc
    rcases List.mem_append.mp hc with h | h
    · exact escapeChar_printable x c h
    · exact ih c h

theorem dumpString_printable (s : Str) :
    ∀ c ∈ dumpString s, 32 ≤ c.toNat ∧ c.toNat ≤ 126 := by
  intro c hc
  rcases hc with _ | hc2
  · exact ⟨by decide, by decide⟩
  · rename_i hc2
    rcases List.mem_append.mp hc2 with h | h
    · exact escapeString_printable s c h
    · simp only [List.mem_singleton] at h
      subst h
      exact ⟨by decide, by decide⟩

theorem intToChars_printable (n : Int) :
    ∀ c ∈ intToChars n, 32 ≤ c.toNat ∧ c.toNat ≤ 126 := by
  intro c hc
  unfold intToChars at hc
  have hdig : ∀ d, d ∈ natToChars n.natAbs → 32 ≤ d.toNat ∧ d.toNat ≤ 126 := by
    intro d hd
    have := natToChars_all_digits n.natAbs d hd
    omega
  split_ifs at hc
  · rcases hc with _ | h
    · exact ⟨by decide, by decide⟩
    · rename_i h2
      exact hdig c h2
  · exact hdig c hc

theorem dumpsElems_printable (xs : List Json)
    (ih : ∀ x ∈ xs, ∀ c ∈ dumps x, 32 ≤ c.toNat ∧ c.toNat ≤ 126) :
    ∀ c ∈ dumpsElems xs, 32 ≤ c.toNat ∧ c.toNat ≤ 126 := by
  induction xs with
  | nil =>
    intro c hc
    simp [dumpsElems] at hc
  | cons x t iht =>
    intro c hc
    rw [show dumpsElems (x :: t) = (str ", " ++ dumps x) ++ dumpsElems t from by
      rw [dumpsElems, List.append_assoc]] at hc
    rcases List.mem_append.mp hc with h | h
    · rcases List.mem_append.mp h with h2 | h2
      · simp only [str, List.mem_cons, List.not_mem_nil, or_false] at h2
        rcases h2 with rfl | rfl <;> exact ⟨by decide, by decide⟩
      · exact ih x (List.mem_cons_self x t) c h2
    · exact iht (fun y hy => ih y (List.mem_cons_of_mem x hy)) c h

theorem dumpsMembers_printable (kvs : List (Str × Json))
    (ih : ∀ kv ∈ kvs, ∀ c ∈ dumps kv.2, 32 ≤ c.toNat ∧ c.toNat ≤ 126) :
    ∀ c ∈ dumpsMembers kvs, 32 ≤ c.toNat ∧ c.toNat ≤ 126 := by
  induction kvs with
  | nil =>
    intro c hc
    simp [dumpsMembers] at hc
  | cons kv t iht =>
    intro c hc
    rw [show dumpsMembers (kv :: t) =
        (((str ", " ++ dumpString kv.1) ++ str ": ") ++ dumps kv.2) ++ dumpsMembers t from by
      simp [dumpsMembers, List.append_assoc]] at hc
    rcases List.mem_append.mp hc with h | h
    · rcases List.mem_append.mp h with h2 | h2
      · rcases List.mem_append.mp h2 with h3 | h3
        · rcases List.mem_append.mp h3 with h4 | h4
          · simp only [str, List.mem_cons, List.not_mem_nil, or_false] at h4
            rcases h4 with rfl | rfl <;> exact ⟨by decide, by decide⟩
          · exact dumpString_printable kv.1 c h4
        · simp only [str, List.mem_cons, List.not_mem_nil, or_false] at h3
          rcases h3 with rfl | rfl <;> exact ⟨by decide, by decide⟩
      · exact ih kv (List.mem_cons_self kv t) c h2
    · exact iht (fun y hy => ih y (List.mem_cons_of_mem kv hy)) c h

theorem dumps_printable (j : Json) :
    ∀ c ∈ dumps j, 32 ≤ c.toNat ∧ c.toNat ≤ 126 := by
  induction j using Json.inductionOn with
  | hnull =>
    intro c hc
    rw [show dumps .null = str "null" from rfl] at hc
    simp only [str, List.mem_cons, List.not_mem_nil, or_false] at hc
    rcases hc with rfl | rfl | rfl | rfl <;> exact ⟨by decide, by decide⟩
  | hbool b =>
    cases b <;> intro c hc
    · rw [show dumps (.bool false) = str "false" from rfl] at hc
      simp only [str, List.mem_cons, List.not_mem_nil, or_false] at hc
      rcases hc with rfl | rfl | rfl | rfl | rfl <;> exact ⟨by decide, by decide⟩
    · rw [show dumps (.bool true) = str "true" from rfl] at hc
      simp only [str, List.mem_cons, List.not_mem_nil, or_false] at hc
      rcases hc with rfl | rfl | rfl | rfl <;> exact ⟨by decide, by decide⟩
  | hnum n => exact intToChars_printable n
  | hstr s => exact dumpString_printable s
  | harr xs ih =>
    cases xs with
    | nil =>
      intro c hc
      rw [show dumps (.arr []) = str "[]" from rfl] at hc
      simp only [str, List.mem_cons, List.not_mem_nil, or_false] at hc
      rcases hc with rfl | rfl <;> exact ⟨by decide, by decide⟩
    | cons x t =>
      intro c hc
      rw [show dumps (.arr (x :: t)) = '[' :: (dumps x ++ dumpsElems t) ++ [']'] from rfl] at hc
      rcases hc with _ | hc2
      · exact ⟨by decide, by decide⟩
      · rename_i hc2
        rcases List.mem_append.mp hc2 with h | h
        · rcases List.mem_append.mp h with h2 | h2
          · exact ih x (List.mem_cons_self x t) c h2
          · exact dumpsElems_printable t
              (fun y hy => ih y (List.mem_cons_of_mem x hy)) c h2
        · simp only [List.mem_singleton] at h
          subst h
          exact ⟨by decide, by decide⟩
  | hobj kvs ih =>
    cases kvs with
    | nil =>
      intro c hc
      rw [show dumps (.obj []) = [lbrace, rbrace] from rfl] at hc
      simp only [List.mem_cons, List.not_mem_nil, or_false] at hc
      rcases hc with rfl | rfl <;> exact ⟨by decide, by decide⟩
    | cons kv t =>
      intro c hc
      rw [show dumps (.obj (kv :: t)) =
          lbrace :: (dumpString kv.1 ++ str ": " ++ dumps kv.2 ++ dumpsMembers t) ++ [rbrace]
          from rfl] at hc
      rcases hc with _ | hc2
      · exact ⟨by decide, by decide⟩
      · rename_i hc2
        rcases List.mem_append.mp hc2 with h | h
        · rcases List.mem_append.mp h with h2 | h2
          · rcases List.mem_append.mp h2 with h3 | h3
            · rcases List.mem_append.mp h3 with h4 | h4
              · exact dumpString_printable kv.1 c h4
              · simp only [str, List.mem_cons, List.not_mem_nil, or_false] at h3 h4
                rcases h4 with rfl | rfl <;> exact ⟨by decide, by decide⟩
            · exact ih kv (List.mem_cons_self kv t) c h3
          · exact dumpsMembers_printable t
              (fun y hy => ih y (List.mem_cons_of_mem kv hy)) c h2
        · simp only [List.mem_singleton] at h
          subst h
          exact ⟨by decide, by decide⟩

theorem isWsJson_eq_false (c : Char)
    (h : c.toNat ≠ 32 ∧ c.toNat ≠ 9 ∧ c.toNat ≠ 10 ∧ c.toNat ≠ 13) :
    isWsJson c = false := by
  have h1 : c ≠ ' ' := char_ne_of_toNat_ne h.1
  have h2 : c ≠ '\t' := char_ne_of_toNat_ne h.2.1
  have h3 : c ≠ '\n' := char_ne_of_toNat_ne h.2.2.1
  have h4 : c ≠ '\r' := char_ne_of_toNat_ne h.2.2.2
  simp [isWsJson, h1, h2, h3, h4]

theorem intToChars_head (n : Int) :
    ∃ c t, intToChars n = c :: t ∧ (c.toNat = 45 ∨ (48 ≤ c.toNat ∧ c.toNat ≤ 57)) := by
  unfold intToChars
  by_cases hneg : n < 0
  · rw [if_pos hneg]
    exact ⟨'-', _, rfl, Or.inl (by decide)⟩
  · rw [if_neg hneg]
    obtain ⟨c, t, heq, h1, h2⟩ := natToChars_head_digit n.natAbs
    exact ⟨c, t, heq, Or.inr ⟨h1, h2⟩⟩

theorem dumps_head (j : Json) :
    ∃ c t, dumps j = c :: t ∧ isWsJson c = false ∧ c ≠ ']' := by
  cases j with
  | null => exact ⟨'n', str "ull", by decide, by decide, by decide⟩
  | bool b =>
    cases b
    · exact ⟨'f', str "alse", by decide, by decide, by decide⟩
    · exact ⟨'t', str "rue", by decide, by decide, by decide⟩
  | num n =>
    obtain ⟨c, t, heq, hc⟩ := intToChars_head n
    refine ⟨c, t, heq, ?_, ?_⟩
    · apply isWsJson_eq_false
      rcases hc with h | h <;> omega
    · apply char_ne_of_toNat_ne
      show c.toNat ≠ 93
      rcases hc with h | h <;> omega
  | str s => exact ⟨'"', _, rfl, by decide, by decide⟩
  | arr xs =>
    cases xs with
    | nil => exact ⟨'[', [']'], by decide, by decide, by decide⟩
    | cons x t => exact ⟨'[', _, rfl, by decide, by decide⟩
  | obj kvs =>
    cases kvs with
    | nil => exact ⟨lbrace, _, rfl, by decide, by decide⟩
    | cons kv t => exact ⟨lbrace, _, rfl, by decide, by decide⟩

theorem wellFormedList_mem (xs : List Json) (h : wellFormedList xs = true) :
    ∀ x ∈ xs, wellFormed x = true := by
  induction xs with
  | nil => simp
  | cons x t ih =>
    rw [wellFormedList, Bool.and_eq_true] at h
    intro y hy
    rcases List.mem_cons.mp hy with rfl | hy2
    · exact h.1
    · exact ih h.2 y hy2

theorem wellFormedMembers_mem (kvs : List (Str × Json)) (h : wellFormedMembers kvs = true) :
    ∀ kv ∈ kvs, wellFormed kv.2 = true := by
  induction kvs with
  | nil => simp
  | cons kv t ih =>
    rw [wellFormedMembers, Bool.and_eq_true] at h
    intro y hy
    rcases List.mem_cons.mp hy with rfl | hy2
    · exact h.1
    · exact ih h.2 y hy2

theorem intToChars_ne_nil (n : Int) : intToChars n ≠ [] := by
  unfold intToChars
  split_ifs
  · simp
  · exact natToChars_ne_nil n.natAbs

theorem jsonSizeList_le (xs : List Json)
    (ih : ∀ x ∈ xs, jsonSize x ≤ (dumps x).length) :
    jsonSizeList xs ≤ (dumpsElems xs).length := by
  induction xs with
  | nil => simp [jsonSizeList, dumpsElems]
  | cons x t iht =>
    rw [jsonSizeList, dumpsElems]
    have h1 := ih x (List.mem_cons_self x t)
    have h2 := iht (fun y hy => ih y (List.mem_cons_of_mem x hy))
    simp only [List.append_assoc, List.length_append]
    simp only [str, List.length_cons, List.length_nil]
    omega

theorem jsonSizeMembers_le (kvs : List (Str × Json))
    (ih : ∀ kv ∈ kvs, jsonSize kv.2 ≤ (dumps kv.2).length) :
    jsonSizeMembers kvs ≤ (dumpsMembers kvs).length := by
  induction kvs with
  | nil => simp [jsonSizeMembers, dumpsMembers]
  | cons kv t iht =>
    rw [jsonSizeMembers, dumpsMembers]
    have h1 := ih kv (List.mem_cons_self kv t)
    have h2 := iht (fun y hy => ih y (List.mem_cons_of_mem kv hy))
    simp only [List.append_assoc, List.length_append]
    simp only [str, List.length_cons, List.length_nil, dumpString, List.length_append]
    omega

theorem jsonSize_le_dumps (j : Json) : jsonSize j ≤ (dumps j).length := by
  induction j using Json.inductionOn with
  | hnull => decide
  | hbool b => cases b <;> decide
  | hnum n =>
    rw [show jsonSize (.num n) = 1 from rfl,
        show dumps (.num n) = intToChars n from rfl]
    cases h : intToChars n with
    | nil => exact absurd h (intToChars_ne_nil n)
    | cons c t => simp
  | hstr s =>
    rw [show jsonSize (.str s) = 1 from rfl,
        show dumps (.str s) = dumpString s from rfl]
    simp [dumpString]
  | harr xs ih =>
    cases xs with
    | nil => decide
    | cons x t =>
      rw [show jsonSize (.arr (x :: t)) = 1 + jsonSizeList (x :: t) from rfl,
          show dumps (.arr (x :: t)) = '[' :: (dumps x ++ dumpsElems t) ++ [']'] from rfl]
      rw [jsonSizeList]
      have h2 := ih x (List.mem_cons_self x t)
      have h4 := jsonSizeList_le t (fun y hy => ih y (List.mem_cons_of_mem x hy))
      simp only [List.length_append, List.length_cons]
      omega
  | hobj kvs ih =>
    cases kvs with
    | nil => decide
    | cons kv t =>
      rw [show jsonSize (.obj (kv :: t)) = 1 + jsonSizeMembers (kv :: t) from rfl,
          show dumps (.obj (kv :: t)) =
            lbrace :: (dumpString kv.1 ++ str ": " ++ dumps kv.2 ++ dumpsMembers t) ++ [rbrace]
            from rfl]
      rw [jsonSizeMembers]
      have h2 := ih kv (List.mem_cons_self kv t)
      have h3 := jsonSizeMembers_le t (fun y hy => ih y (List.mem_cons_of_mem kv hy))
      simp only [List.length_append, List.length_cons, List.append_assoc]
      simp only [str, dumpString, List.length_append, List.length_cons, List.length_nil]
      omega

/-! ## Parser correctness on `dumps` output -/

theorem parseVal_cons (fuel : Nat) (c : Char) (rest : Str) :
    parseVal (fuel + 1) (c :: rest) =
      (if c = '"' then (parseStringBody rest).map (fun p => (.str p.1, p.2))
      else if c = '[' then
        match skipWs rest with
        | [] => none
        | d :: rest2 =>
          if d = ']' then some (.arr [], rest2)
          else (parseElems fuel (d :: rest2)).map (fun p => (.arr p.1, p.2))
      else if c = lbrace then
        match skipWs rest with
        | [] => none
        | d :: rest2 =>
          if d = rbrace then some (.obj [], rest2)
          else (parseMembers fuel (d :: rest2)).map (fun p => (.obj p.1, p.2))
      else if (c :: rest).take 4 = str "null" then some (.null, (c :: rest).drop 4)
      else if (c :: rest).take 4 = str "true" then some (.bool true, (c :: rest).drop 4)
      else if (c :: rest).take 5 = str "false" then some (.bool false, (c :: rest).drop 5)
      else parseNum (c :: rest)) := rfl

theorem parseElems_succ (fuel : Nat) (input : Str) :
    parseElems (fuel + 1) input =
      (match parseVal fuel input with
      | none => none
      | some (v, rest) =>
        match skipWs rest with
        | [] => none
        | c :: rest2 =>
          if c = ']' then some ([v], rest2)
          else if c = ',' then
            (parseElems fuel (skipWs rest2)).map (fun p => (v :: p.1, p.2))
          else none) := rfl

theorem parseMembers_succ (fuel : Nat) (input : Str) :
    parseMembers (fuel + 1) input =
      (match input with
      | [] => none
      | q :: r =>
        if q = '"' then
          match parseStringBody r with
          | none => none
          | some (k, r2) =>
            match skipWs r2 with
            | [] => none
            | colon :: r3 =>
              if colon = ':' then
                match parseVal fuel (skipWs r3) with
                | none => none
                | some (v, r4) =>
                  match skipWs r4 with
                  | [] => none
                  | c :: r5 =>
                    if c = rbrace then some ([(k, v)], r5)
                    else if c = ',' then
                      (parseMembers fuel (skipWs r5)).map (fun p => ((k, v) :: p.1, p.2))
                    else none
              else none
        else none) := rfl

theorem take_cons_ne (c d : Char) (l t : Str) (h : c ≠ d) (n : Nat) :
    (c :: l).take (n + 1) ≠ d :: t := by
  rw [List.take_succ_cons]
  intro he
  injection he with h1 _
  exact h h1

theorem jsonSize_pos (j : Json) : 1 ≤ jsonSize j := by
  cases j <;> simp [jsonSize]

theorem parseVal_dumps_null (f : Nat) (rest : Str) :
    parseVal (f + 1) (dumps .null ++ rest) = some (.null, rest) := by
  show parseVal (f + 1) ('n' :: 'u' :: 'l' :: 'l' :: rest) = some (.null, rest)
  rw [parseVal_cons, if_neg (by decide), if_neg (by decide), if_neg (by decide),
      if_pos (by rfl)]
  rfl

theorem parseVal_dumps_bool (f : Nat) (b : Bool) (rest : Str) :
    parseVal (f + 1) (dumps (.bool b) ++ rest) = some (.bool b, rest) := by
  cases b
  · show parseVal (f + 1) ('f' :: 'a' :: 'l' :: 's' :: 'e' :: rest) = some (.bool false, rest)
    rw [parseVal_cons, if_neg (by decide), if_neg (by decide), if_neg (by decide),
        if_neg (show ¬(('f' :: 'a' :: 'l' :: 's' :: 'e' :: rest).take 4 = str "null") from
          take_cons_ne 'f' 'n' _ _ (by decide) 3),
        if_neg (show ¬(('f' :: 'a' :: 'l' :: 's' :: 'e' :: rest).take 4 = str "true") from
          take_cons_ne 'f' 't' _ _ (by decide) 3),
        if_pos (by rfl)]
    rfl
  · show parseVal (f + 1) ('t' :: 'r' :: 'u' :: 'e' :: rest) = some (.bool true, rest)
    rw [parseVal_cons, if_neg (by decide), if_neg (by decide), if_neg (by decide),
        if_neg (show ¬(('t' :: 'r' :: 'u' :: 'e' :: rest).take 4 = str "null") from
          take_cons_ne 't' 'n' _ _ (by decide) 3),
        if_pos (by rfl)]
    rfl

theorem parseVal_dumps_num (f : Nat) (n : Int) (rest : Str)
    (hrest : ∀ c, rest.head? = some c → (c = ']' ∨ c = ',' ∨ c = rbrace)) :
    parseVal (f + 1) (dumps (.num n) ++ rest) = some (.num n, rest) := by
  obtain ⟨c, t, heq, hc⟩ := intToChars_head n
  show parseVal (f + 1) (intToChars n ++ rest) = some (.num n, rest)
  rw [heq, List.cons_append, parseVal_cons,
      if_neg (char_ne_of_toNat_ne (show c.toNat ≠ 34 by rcases hc with h | h <;> omega)),
      if_neg (char_ne_of_toNat_ne (show c.toNat ≠ 91 by rcases hc with h | h <;> omega)),
      if_neg (char_ne_of_toNat_ne (show c.toNat ≠ 123 by rcases hc with h | h <;> omega)),
      if_neg (show ¬((c :: (t ++ rest)).take 4 = str "null") from take_cons_ne c 'n' _ _
        (char_ne_of_toNat_ne (show c.toNat ≠ 110 by rcases hc with h | h <;> omega)) 3),
      if_neg (show ¬((c :: (t ++ rest)).take 4 = str "true") from take_cons_ne c 't' _ _
        (char_ne_of_toNat_ne (show c.toNat ≠ 116 by rcases hc with h | h <;> omega)) 3),
      if_neg (show ¬((c :: (t ++ rest)).take 5 = str "false") from take_cons_ne c 'f' _ _
        (char_ne_of_toNat_ne (show c.toNat ≠ 102 by rcases hc with h | h <;> omega)) 4),
      ← List.cons_append, ← heq]
  apply parseNum_intToChars n rest
  intro d hd
  rcases hrest d hd with rfl | rfl | rfl
  · exact ⟨by decide, by decide, by decide, by decide⟩
  · exact ⟨by decide, by decide, by decide, by decide⟩
  · exact ⟨by decide, by decide, by decide, by decide⟩

theorem parseVal_dumps_str (f : Nat) (s : Str) (rest : Str) :
    parseVal (f + 1) (dumps (.str s) ++ rest) = some (.str s, rest) := by
  show parseVal (f + 1) (('"' :: (escapeString s ++ ['"'])) ++ rest) = some (.str s, rest)
  rw [List.cons_append, parseVal_cons, if_pos rfl]
  rw [show (escapeString s ++ ['"']) ++ rest = escapeString s ++ '"' :: rest from by
    simp [List.append_assoc]]
  rw [parseStringBody_escape]
  rfl

theorem head_elem_sep (xs : List Json) (rest : Str) (c : Char)
    (h : (dumpsElems xs ++ ']' :: rest).head? = some c) :
    c = ']' ∨ c = ',' ∨ c = rbrace := by
  cases xs with
  | nil =>
    rw [show dumpsElems [] ++ ']' :: rest = ']' :: rest from rfl, List.head?_cons] at h
    exact Or.inl (Option.some.inj h).symm
  | cons y ys =>
    rw [show dumpsElems (y :: ys) ++ ']' :: rest
        = ',' :: ' ' :: ((dumps y ++ dumpsElems ys) ++ ']' :: rest) from rfl,
      List.head?_cons] at h
    exact Or.inr (Or.inl (Option.some.inj h).symm)

theorem head_member_sep (kvs : List (Str × Json)) (rest : Str) (c : Char)
    (h : (dumpsMembers kvs ++ rbrace :: rest).head? = some c) :
    c = ']' ∨ c = ',' ∨ c = rbrace := by
  cases kvs with
  | nil =>
    rw [show dumpsMembers [] ++ rbrace :: rest = rbrace :: rest from rfl,
      List.head?_cons] at h
    exact Or.inr (Or.inr (Option.some.inj h).symm)
  | cons kv kvs2 =>
    rw [show dumpsMembers (kv :: kvs2) ++ rbrace :: rest
        = ',' :: ' ' :: ((((dumpString kv.1 ++ str ": ") ++ dumps kv.2)
            ++ dumpsMembers kvs2) ++ rbrace :: rest) from rfl,
      List.head?_cons] at h
    exact Or.inr (Or.inl (Option.some.inj h).symm)

theorem parseVal_dumps_arr (f : Nat) (xs : List Json) (rest : Str)
    (hwf : wellFormed (.arr xs) = true) (hsz : jsonSize (.arr xs) ≤ f + 1)
    (hrest : ∀ c, rest.head? = some c → (c = ']' ∨ c = ',' ∨ c = rbrace))
    (hIHb : ∀ (x : Json) (t : List Json) (r : Str), wellFormed x = true →
      wellFormedList t = true → jsonSizeList (x :: t) ≤ f →
      (∀ c, r.head? = some c → (c = ']' ∨ c = ',' ∨ c = rbrace)) →
      parseElems f ((dumps x ++ dumpsElems t) ++ ']' :: r) = some (x :: t, r)) :
    parseVal (f + 1) (dumps (.arr xs) ++ rest) = some (.arr xs, rest) := by
  cases xs with
  | nil =>
    show parseVal (f + 1) ('[' :: ']' :: rest) = some (.arr [], rest)
    rw [parseVal_cons, if_neg (by decide), if_pos rfl,
        skipWs_not_ws ']' rest (by decide)]
    dsimp only
    rw [if_pos rfl]
  | cons x t =>
    have h0 : wellFormed (.arr (x :: t)) = (wellFormed x && wellFormedList t) := rfl
    rw [h0, Bool.and_eq_true] at hwf
    have hsz' : jsonSizeList (x :: t) ≤ f := by
      have h1 : jsonSize (.arr (x :: t)) = 1 + jsonSizeList (x :: t) := rfl
      rw [h1] at hsz
      omega
    have hin : dumps (.arr (x :: t)) ++ rest
        = '[' :: ((dumps x ++ dumpsElems t) ++ ']' :: rest) := by
      show ('[' :: (dumps x ++ dumpsElems t) ++ [']']) ++ rest = _
      simp [List.append_assoc]
    rw [hin, parseVal_cons, if_neg (by decide), if_pos rfl]
    obtain ⟨hc, ht, hdeq, hws, hne⟩ := dumps_head x
    rw [hdeq, List.cons_append, List.cons_append, skipWs_not_ws hc _ hws]
    dsimp only
    rw [if_neg hne, ← List.cons_append, ← List.cons_append, ← hdeq,
        hIHb x t rest hwf.1 hwf.2 hsz' hrest]
    rfl

theorem parseVal_dumps_obj (f : Nat) (kvs : List (Str × Json)) (rest : Str)
    (hwf : wellFormed (.obj kvs) = true) (hsz : jsonSize (.obj kvs) ≤ f + 1)
    (hrest : ∀ c, rest.head? = some c → (c = ']' ∨ c = ',' ∨ c = rbrace))
    (hIHc : ∀ (k : Str) (v : Json) (t : List (Str × Json)) (r : Str),
      wellFormed v = true → wellFormedMembers t = true →
      jsonSizeMembers ((k, v) :: t) ≤ f →
      (∀ c, r.head? = some c → (c = ']' ∨ c = ',' ∨ c = rbrace)) →
      parseMembers f
        ((((dumpString k ++ str ": ") ++ dumps v) ++ dumpsMembers t) ++ rbrace :: r) =
        some ((k, v) :: t, r)) :
    parseVal (f + 1) (dumps (.obj kvs) ++ rest) = some (.obj kvs, rest) := by
  cases kvs with
  | nil =>
    show parseVal (f + 1) (lbrace :: rbrace :: rest) = some (.obj [], rest)
    rw [parseVal_cons, if_neg (by decide), if_neg (by decide), if_pos rfl,
        skipWs_not_ws rbrace rest (by decide)]
    dsimp only
    rw [if_pos rfl]
  | cons kv t =>
    obtain ⟨k, v⟩ := kv
    have h0 : wellFormed (.obj ((k, v) :: t))
        = (decide ((((k, v) :: t).map Prod.fst).Nodup)
            && (wellFormed v && wellFormedMembers t)) := rfl
    rw [h0, Bool.and_eq_true, Bool.and_eq_true] at hwf
    have hsz' : jsonSizeMembers ((k, v) :: t) ≤ f := by
      have h1 : jsonSize (.obj ((k, v) :: t)) = 1 + jsonSizeMembers ((k, v) :: t) := rfl
      rw [h1] at hsz
      omega
    have hin : dumps (.obj ((k, v) :: t)) ++ rest
        = lbrace :: ((((dumpString k ++ str ": ") ++ dumps v) ++ dumpsMembers t)
            ++ rbrace :: rest) := by
      show (lbrace :: (((dumpString k ++ str ": ") ++ dumps v) ++ dumpsMembers t)
          ++ [rbrace]) ++ rest = _
      simp [List.append_assoc]
    rw [hin, parseVal_cons, if_neg (by decide), if_neg (by decide), if_pos rfl]
    have hsc : (((dumpString k ++ str ": ") ++ dumps v) ++ dumpsMembers t)
        ++ rbrace :: rest
        = '"' :: (((((escapeString k ++ ['"']) ++ str ": ") ++ dumps v)
            ++ dumpsMembers t) ++ rbrace :: rest) := rfl
    rw [hsc, skipWs_not_ws '"' _ (by decide)]
    dsimp only
    rw [if_neg (show ('"' : Char) ≠ rbrace by decide), ← hsc,
        hIHc k v t rest hwf.2.1 hwf.2.2 hsz' hrest]
    rfl

theorem parseElems_dumps_step (f : Nat) (x : Json) (xs : List Json) (rest : Str)
    (hwx : wellFormed x = true) (hwxs : wellFormedList xs = true)
    (hsz : jsonSizeList (x :: xs) ≤ f + 1)
    (hrest : ∀ c, rest.head? = some c → (c = ']' ∨ c = ',' ∨ c = rbrace))
    (hIHa : ∀ (j : Json) (r : Str), wellFormed j = true → jsonSize j ≤ f →
      (∀ c, r.head? = some c → (c = ']' ∨ c = ',' ∨ c = rbrace)) →
      parseVal f (dumps j ++ r) = some (j, r))
    (hIHb : ∀ (y : Json) (t : List Json) (r : Str), wellFormed y = true →
      wellFormedList t = true → jsonSizeList (y :: t) ≤ f →
      (∀ c, r.head? = some c → (c = ']' ∨ c = ',' ∨ c = rbrace)) →
      parseElems f ((dumps y ++ dumpsElems t) ++ ']' :: r) = some (y :: t, r)) :
    parseElems (f + 1) ((dumps x ++ dumpsElems xs) ++ ']' :: rest) = some (x :: xs, rest) := by
  have hszx : jsonSize x ≤ f := by
    have h0 : jsonSizeList (x :: xs) = 1 + jsonSize x + jsonSizeList xs := rfl
    rw [h0] at hsz
    omega
  rw [parseElems_succ, List.append_assoc,
      hIHa x (dumpsElems xs ++ ']' :: rest) hwx hszx (head_elem_sep xs rest)]
  dsimp only
  cases xs with
  | nil =>
    rw [show dumpsElems [] ++ ']' :: rest = ']' :: rest from rfl,
        skipWs_not_ws ']' rest (by decide)]
    dsimp only
    rw [if_pos rfl]
  | cons y ys =>
    have h1 : wellFormedList (y :: ys) = (wellFormed y && wellFormedList ys) := rfl
    rw [h1, Bool.and_eq_true] at hwxs
    have hsz2 : jsonSizeList (y :: ys) ≤ f := by
      have h2 : jsonSizeList (x :: y :: ys) = 1 + jsonSize x + jsonSizeList (y :: ys) := rfl
      rw [h2] at hsz
      have := jsonSize_pos x
      omega
    rw [show dumpsElems (y :: ys) ++ ']' :: rest
        = ',' :: ' ' :: ((dumps y ++ dumpsElems ys) ++ ']' :: rest) from rfl,
        skipWs_not_ws ',' _ (by decide)]
    dsimp only
    rw [if_neg (show (',' : Char) ≠ ']' by decide), if_pos rfl,
        skipWs_ws ' ' _ (by decide)]
    obtain ⟨hc, ht, hdeq, hws, hne⟩ := dumps_head y
    rw [hdeq, List.cons_append, List.cons_append, skipWs_not_ws hc _ hws,
        ← List.cons_append, ← List.cons_append, ← hdeq,
        hIHb y ys rest hwxs.1 hwxs.2 hsz2 hrest]
    rfl

theorem parseMembers_dumps_step (f : Nat) (k : Str) (v : Json)
    (kvs : List (Str × Json)) (rest : Str)
    (hwv : wellFormed v = true) (hwm : wellFormedMembers kvs = true)
    (hsz : jsonSizeMembers ((k, v) :: kvs) ≤ f + 1)
    (hrest : ∀ c, rest.head? = some c → (c = ']' ∨ c = ',' ∨ c = rbrace))
    (hIHa : ∀ (j : Json) (r : Str), wellFormed j = true → jsonSize j ≤ f →
      (∀ c, r.head? = some c → (c = ']' ∨ c = ',' ∨ c = rbrace)) →
      parseVal f (dumps j ++ r) = some (j, r))
    (hIHc : ∀ (k2 : Str) (v2 : Json) (t : List (Str × Json)) (r : Str),
      wellFormed v2 = true → wellFormedMembers t = true →
      jsonSizeMembers ((k2, v2) :: t) ≤ f →
      (∀ c, r.head? = some c → (c = ']' ∨ c = ',' ∨ c = rbrace)) →
      parseMembers f
        ((((dumpString k2 ++ str ": ") ++ dumps v2) ++ dumpsMembers t) ++ rbrace :: r) =
        some ((k2, v2) :: t, r)) :
    parseMembers (f + 1)
      ((((dumpString k ++ str ": ") ++ dumps v) ++ dumpsMembers kvs) ++ rbrace :: rest) =
      some ((k, v) :: kvs, rest) := by
  have hsz0 : 1 + jsonSize v + jsonSizeMembers kvs ≤ f + 1 := by
    have h0 : jsonSizeMembers ((k, v) :: kvs) = 1 + jsonSize v + jsonSizeMembers kvs := rfl
    rw [h0] at hsz
    exact hsz
  have hszv : jsonSize v ≤ f := by omega
  rw [parseMembers_succ]
  have hin : (((dumpString k ++ str ": ") ++ dumps v) ++ dumpsMembers kvs)
      ++ rbrace :: rest
      = '"' :: (((((escapeString k ++ ['"']) ++ str ": ") ++ dumps v)
          ++ dumpsMembers kvs) ++ rbrace :: rest) := rfl
  rw [hin]
  dsimp only
  rw [if_pos rfl]
  have hr : ((((escapeString k ++ ['"']) ++ str ": ") ++ dumps v)
      ++ dumpsMembers kvs) ++ rbrace :: rest
      = escapeString k ++ '"' :: (str ": "
          ++ (dumps v ++ (dumpsMembers kvs ++ rbrace :: rest))) := by
    simp [List.append_assoc]
  rw [hr, parseStringBody_escape]
  dsimp only
  rw [show str ": " ++ (dumps v ++ (dumpsMembers kvs ++ rbrace :: rest))
      = ':' :: ' ' :: (dumps v ++ (dumpsMembers kvs ++ rbrace :: rest)) from rfl,
      skipWs_not_ws ':' _ (by decide)]
  dsimp only
  rw [if_pos rfl, skipWs_ws ' ' _ (by decide)]
  obtain ⟨hc, ht, hdeq, hws, hne⟩ := dumps_head v
  rw [hdeq, List.cons_append, skipWs_not_ws hc _ hws, ← List.cons_append, ← hdeq,
      hIHa v (dumpsMembers kvs ++ rbrace :: rest) hwv hszv (head_member_sep kvs rest)]
  dsimp only
  cases kvs with
  | nil =>
    rw [show dumpsMembers [] ++ rbrace :: rest = rbrace :: rest from rfl,
        skipWs_not_ws rbrace rest (by decide)]
    dsimp only
    rw [if_pos rfl]
  | cons kv2 t2 =>
    obtain ⟨k2, v2⟩ := kv2
    have h1 : wellFormedMembers ((k2, v2) :: t2)
        = (wellFormed v2 && wellFormedMembers t2) := rfl
    rw [h1, Bool.and_eq_true] at hwm
    have hsz2 : jsonSizeMembers ((k2, v2) :: t2) ≤ f := by
      have := jsonSize_pos v
      omega
    rw [show dumpsMembers ((k2, v2) :: t2) ++ rbrace :: rest
        = ',' :: ' ' :: ((((dumpString k2 ++ str ": ") ++ dumps v2)
            ++ dumpsMembers t2) ++ rbrace :: rest) from rfl,
        skipWs_not_ws ',' _ (by decide)]
    dsimp only
    rw [if_neg (show (',' : Char) ≠ rbrace by decide), if_pos rfl,
        skipWs_ws ' ' _ (by decide)]
    have hsc2 : (((dumpString k2 ++ str ": ") ++ dumps v2) ++ dumpsMembers t2)
        ++ rbrace :: rest
        = '"' :: (((((escapeString k2 ++ ['"']) ++ str ": ") ++ dumps v2)
            ++ dumpsMembers t2) ++ rbrace :: rest) := rfl
    rw [hsc2, skipWs_not_ws '"' _ (by decide), ← hsc2,
        hIHc k2 v2 t2 rest hwm.1 hwm.2 hsz2 hrest]
    rfl

theorem parse_dumps (fuel : Nat) :
    (∀ (j : Json) (rest : Str), wellFormed j = true → jsonSize j ≤ fuel →
      (∀ c, rest.head? = some c → (c = ']' ∨ c = ',' ∨ c = rbrace)) →
      parseVal fuel (dumps j ++ rest) = some (j, rest)) ∧
    (∀ (x : Json) (xs : List Json) (rest : Str), wellFormed x = true →
      wellFormedList xs = true → jsonSizeList (x :: xs) ≤ fuel →
      (∀ c, rest.head? = some c → (c = ']' ∨ c = ',' ∨ c = rbrace)) →
      parseElems fuel ((dumps x ++ dumpsElems xs) ++ ']' :: rest) = some (x :: xs, rest)) ∧
    (∀ (k : Str) (v : Json) (kvs : List (Str × Json)) (rest : Str),
      wellFormed v = true → wellFormedMembers kvs = true →
      jsonSizeMembers ((k, v) :: kvs) ≤ fuel →
      (∀ c, rest.head? = some c → (c = ']' ∨ c = ',' ∨ c = rbrace)) →
      parseMembers fuel
        ((((dumpString k ++ str ": ") ++ dumps v) ++ dumpsMembers kvs) ++ rbrace :: rest) =
        some ((k, v) :: kvs, rest)) := by
  induction fuel with
  | zero =>
    refine ⟨?_, ?_, ?_⟩
    · intro j rest _ hsz _
      have := jsonSize_pos j
      omega
    · intro x xs rest _ _ hsz _
      have h0 : jsonSizeList (x :: xs) = 1 + jsonSize x + jsonSizeList xs := rfl
      rw [h0] at hsz
      omega
    · intro k v kvs rest _ _ hsz _
      have h0 : jsonSizeMembers ((k, v) :: kvs) = 1 + jsonSize v + jsonSizeMembers kvs := rfl
      rw [h0] at hsz
      omega
  | succ f IH =>
    refine ⟨?_, ?_, ?_⟩
    · intro j rest hwf hsz hrest
      cases j with
      | null => exact parseVal_dumps_null f rest
      | bool b => exact parseVal_dumps_bool f b rest
      | num n => exact parseVal_dumps_num f n rest hrest
      | str s => exact parseVal_dumps_str f s rest
      | arr xs => exact parseVal_dumps_arr f xs rest hwf hsz hrest IH.2.1
      | obj kvs => exact parseVal_dumps_obj f kvs rest hwf hsz hrest IH.2.2
    · intro x xs rest hwx hwxs hsz hrest
      exact parseElems_dumps_step f x xs rest hwx hwxs hsz hrest IH.1 IH.2.1
    · intro k v kvs rest hwv hwm hsz hrest
      exact parseMembers_dumps_step f k v kvs rest hwv hwm hsz hrest IH.1 IH.2.2

/-- `json.loads (json.dumps v)` recovers `v` for every well-formed value:
the fuel `length + 1` suffices because the node count is bounded by the
rendered length. -/
theorem loads_dumps (j : Json) (hwf : wellFormed j = true) :
    loads (dumps j) = some j := by
  obtain ⟨c, t, hdeq, hws, hne⟩ := dumps_head j
  have hskip : skipWs (dumps j) = dumps j := by
    rw [hdeq]
    exact skipWs_not_ws c t hws
  have hparse : parseVal ((dumps j).length + 1) (dumps j) = some (j, []) := by
    have h := (parse_dumps ((dumps j).length + 1)).1 j [] hwf
      (le_trans (jsonSize_le_dumps j) (Nat.le_succ _))
      (fun d hd => by simp at hd)
    rw [List.append_nil] at h
    exact h
  show (match parseVal ((skipWs (dumps j)).length + 1) (skipWs (dumps j)) with
      | some (v, rest) => if (skipWs rest).isEmpty then some v else none
      | none => none) = some j
  rw [hskip, hparse]
  rfl

/-! ## Header-loop lemmas for the frame round-trip -/

theorem pyIsSpace_eq_false (c : Char)
    (h : c.toNat ≠ 32 ∧ c.toNat ≠ 9 ∧ c.toNat ≠ 10 ∧ c.toNat ≠ 13 ∧
      c.toNat ≠ 11 ∧ c.toNat ≠ 12) :
    pyIsSpace c = false := by
  have h1 : c ≠ ' ' := char_ne_of_toNat_ne h.1
  have h2 : c ≠ '\t' := char_ne_of_toNat_ne h.2.1
  have h3 : c ≠ '\n' := char_ne_of_toNat_ne h.2.2.1
  have h4 : c ≠ '\r' := char_ne_of_toNat_ne h.2.2.2.1
  have h5 : c ≠ Char.ofNat 11 := char_ne_of_toNat_ne (by rw [show (Char.ofNat 11).toNat = 11 from rfl]; exact h.2.2.2.2.1)
  have h6 : c ≠ Char.ofNat 12 := char_ne_of_toNat_ne (by rw [show (Char.ofNat 12).toNat = 12 from rfl]; exact h.2.2.2.2.2)
  simp [pyIsSpace, h1, h2, h3, h4, h5, h6]

theorem readHeadersAux_cons (acc : Option Nat) (lineAcc : List Nat) (b : Nat)
    (rest : List Nat) :
    readHeadersAux acc lineAcc (b :: rest) =
      (if b = 10 then
        match utf8Decode (lineAcc ++ [10]) with
        | none => none
        | some chars =>
          if (pyStrip chars).isEmpty then some (acc, rest)
          else
            match matchContentLength (pyStrip chars) with
            | some n => readHeadersAux (some n) [] rest
            | none => readHeadersAux acc [] rest
      else readHeadersAux acc (lineAcc ++ [b]) rest) := rfl

theorem readHeadersAux_no_lf (bs : List Nat) (h : ∀ b ∈ bs, b ≠ 10) :
    ∀ (acc : Option Nat) (lineAcc rest : List Nat),
    readHeadersAux acc lineAcc (bs ++ rest) = readHeadersAux acc (lineAcc ++ bs) rest := by
  induction bs with
  | nil =>
    intro acc lineAcc rest
    rw [List.nil_append, List.append_nil]
  | cons b t ih =>
    intro acc lineAcc rest
    rw [List.cons_append, readHeadersAux_cons, if_neg (h b (List.mem_cons_self b t)),
        ih (fun x hx => h x (List.mem_cons_of_mem b hx)) acc (lineAcc ++ [b]) rest,
        List.append_assoc]
    rfl

theorem pyStrip_line (c : Char) (t : Str) (d : Char)
    (hc : pyIsSpace c = false) (hd : pyIsSpace d = false) :
    pyStrip ((c :: t) ++ [d] ++ ['\r', '\n']) = (c :: t) ++ [d] := by
  show (((((c :: t) ++ [d] ++ ['\r', '\n']).dropWhile pyIsSpace).reverse.dropWhile
    pyIsSpace)).reverse = (c :: t) ++ [d]
  rw [show (c :: t) ++ [d] ++ ['\r', '\n'] = c :: (t ++ [d, '\r', '\n']) from by simp,
      List.dropWhile_cons, if_neg (by simp [hc]),
      show (c :: (t ++ [d, '\r', '\n'])).reverse
        = '\n' :: '\r' :: d :: (t.reverse ++ [c]) from by simp,
      List.dropWhile_cons, if_pos (by decide),
      List.dropWhile_cons, if_pos (by decide),
      List.dropWhile_cons, if_neg (by simp [hd])]
  simp

theorem header_chars (L : Nat) :
    ∀ c ∈ str "Content-Length: " ++ natToChars L, 32 ≤ c.toNat ∧ c.toNat < 128 := by
  intro c hc
  rcases List.mem_append.mp hc with h | h
  · have hall : ∀ x ∈ str "Content-Length: ", 32 ≤ x.toNat ∧ x.toNat < 128 := by decide
    exact hall c h
  · have := natToChars_all_digits L c h
    omega

theorem readHeaders_frame (L : Nat) (tail : List Nat) :
    readHeadersAux none []
      ((str "Content-Length: " ++ natToChars L).map Char.toNat
        ++ 13 :: 10 :: 13 :: 10 :: tail) = some (some L, tail) := by
  have hhdr := header_chars L
  have hB1 : ∀ b ∈ (str "Content-Length: " ++ natToChars L).map Char.toNat, b ≠ 10 := by
    intro b hb
    obtain ⟨c, hc, rfl⟩ := List.mem_map.mp hb
    have := hhdr c hc
    omega
  have hd1 : ((str "Content-Length: " ++ natToChars L).map Char.toNat ++ [13]) ++ [10]
      = ((str "Content-Length: " ++ natToChars L) ++ ['\r', '\n']).map Char.toNat := by
    simp only [List.map_append, List.append_assoc]
    rfl
  have hasc : ∀ c ∈ (str "Content-Length: " ++ natToChars L) ++ ['\r', '\n'],
      c.toNat < 128 := by
    intro c hc
    rcases List.mem_append.mp hc with h | h
    · exact (hhdr c h).2
    · have hall : ∀ x ∈ (['\r', '\n'] : Str), x.toNat < 128 := by decide
      exact hall c h
  obtain ⟨init, lastd, hds⟩ : ∃ init lastd, natToChars L = init ++ [lastd] := by
    rcases List.eq_nil_or_concat (natToChars L) with h | ⟨a, b, h⟩
    · exact absurd h (natToChars_ne_nil L)
    · exact ⟨a, b, by simpa using h⟩
  have hlastd : 48 ≤ lastd.toNat ∧ lastd.toNat ≤ 57 := by
    apply natToChars_all_digits L
    rw [hds]
    simp
  have hsplitC : str "Content-Length: " = 'C' :: str "ontent-Length: " := rfl
  have hshape : (str "Content-Length: " ++ natToChars L) ++ ['\r', '\n']
      = ('C' :: (str "ontent-Length: " ++ init)) ++ [lastd] ++ ['\r', '\n'] := by
    rw [hds, hsplitC]
    simp
  have hps : pyStrip ((str "Content-Length: " ++ natToChars L) ++ ['\r', '\n'])
      = str "Content-Length: " ++ natToChars L := by
    rw [hshape, pyStrip_line 'C' _ lastd (by decide)
      (pyIsSpace_eq_false lastd (by omega)), hds, hsplitC]
    simp
  have hne : ¬((str "Content-Length: " ++ natToChars L).isEmpty = true) := by
    rw [show str "Content-Length: " ++ natToChars L
        = 'C' :: (str "ontent-Length: " ++ natToChars L) from rfl]
    simp
  rw [readHeadersAux_no_lf _ hB1 none [] _, List.nil_append,
      readHeadersAux_cons, if_neg (by decide),
      readHeadersAux_cons, if_pos rfl,
      hd1, utf8Decode_ascii _ hasc]
  dsimp only
  rw [hps, if_neg hne, matchContentLength_header L]
  dsimp only
  rw [readHeadersAux_cons, if_neg (by decide), readHeadersAux_cons, if_pos rfl,
      show (([] : List Nat) ++ [13]) ++ [10] = (['\r', '\n'] : Str).map Char.toNat from rfl,
      utf8Decode_ascii _ (by decide)]
  dsimp only
  rw [show pyStrip ['\r', '\n'] = [] from rfl]
  rfl

theorem read_message_def (stream : List Nat) :
    read_message stream =
      (match readHeadersAux none [] stream with
      | none => .decodeError
      | some (none, rest) => .endOrMissing rest
      | some (some n, rest) =>
        if rest.length < n then .incompleteBody n rest.length
        else
          match utf8Decode (rest.take n) with
          | none => .decodeError
          | some body =>
            match loads body with
            | none => .jsonError
            | some j => .msg j (rest.drop n)) := rfl

theorem send_bytes (j : Json) (rest : List Nat) :
    send j ++ rest
      = (str "Content-Length: " ++ natToChars (dumps j).length).map Char.toNat
        ++ 13 :: 10 :: 13 :: 10 :: ((dumps j).map Char.toNat ++ rest) := by
  have hall : ∀ c ∈ ((str "Content-Length: " ++ natToChars (dumps j).length)
      ++ str "\r\n\r\n") ++ dumps j, c.toNat < 128 := by
    intro c hc
    rcases List.mem_append.mp hc with h | h
    · rcases List.mem_append.mp h with h2 | h2
      · exact (header_chars (dumps j).length c h2).2
      · have hall2 : ∀ x ∈ str "\r\n\r\n", x.toNat < 128 := by decide
        exact hall2 c h2
    · have := dumps_printable j c h
      omega
  show utf8Encode (((str "Content-Length: " ++ natToChars (dumps j).length)
      ++ str "\r\n\r\n") ++ dumps j) ++ rest = _
  rw [utf8Encode_ascii _ hall]
  simp only [List.map_append, List.append_assoc]
  rfl

/-- C3 (confirmed): for every well-formed JSON value, framing it with
`send` (`Content-Length: <n>\r\n\r\n` + `json.dumps` body) and then calling
`read_message` on the produced bytes — followed by any further stream
content — reconstructs exactly the original value and consumes exactly the
frame. With `ensure_ascii=True` the body is pure ASCII, so the character
count `len(content)` used in the header equals the byte length, which is
what makes the round trip sound even for payloads whose string values hold
multi-byte characters. -/
theorem C3_frame_round_trip (j : Json) (rest : List Nat)
    (hwf : wellFormed j = true) :
    read_message (send j ++ rest) = .msg j rest := by
  have hCascii : ∀ c ∈ dumps j, c.toNat < 128 := by
    intro c hc
    have := dumps_printable j c hc
    omega
  rw [send_bytes j rest, read_message_def,
      readHeaders_frame (dumps j).length ((dumps j).map Char.toNat ++ rest)]
  dsimp only
  rw [if_neg (show ¬(((dumps j).map Char.toNat ++ rest).length < (dumps j).length) from by
        rw [List.length_append, List.length_map]; omega),
      List.take_left' (by rw [List.length_map]), utf8Decode_ascii _ hCascii]
  dsimp only
  rw [loads_dumps j hwf]
  dsimp only
  rw [List.drop_left' (by rw [List.length_map])]

theorem C3_frame_round_trip_witness :
    wellFormed (.obj []) = true ∧
    read_message (send (.obj []) ++ [65]) = .msg (.obj []) [65] ∧
    wellFormed (.obj [(str "text", .str (str "héllo 𝄞"))]) = true ∧
    read_message (send (.obj [(str "text", .str (str "héllo 𝄞"))]) ++ []) =
      .msg (.obj [(str "text", .str (str "héllo 𝄞"))]) [] :=
  ⟨by decide, C3_frame_round_trip (.obj []) [65] (by decide),
   by decide, C3_frame_round_trip (.obj [(str "text", .str (str "héllo 𝄞"))]) [] (by decide)⟩

/-- C4 (counterexample): a stream whose header block terminates (blank line
reached) without any `Content-Length` header makes `read_message` return
the very same `None` signal (`endOrMissing`, with the stream fully
consumed) that an exhausted stream produces: no `FramingError` exists in
the code and the two outcomes are not distinct. -/
theorem C4_counterexample_missing_length_not_distinct :
    read_message (utf8Encode (str "Foo: 1\r\n\r\n")) = .endOrMissing []
    ∧ read_message [] = .endOrMissing [] := ⟨rfl, rfl⟩

/-- C4 (amended): for every header block consisting of one printable,
non-blank header line that does not match `Content-Length: (\d+)`,
followed by the blank terminator, `read_message` returns `None`
(`endOrMissing`) — exactly the signal it returns at end of stream. The
reader has no separate missing-length error. -/
theorem C4_missing_length_same_as_eof (line : Str)
    (hascii : ∀ c ∈ line, 32 ≤ c.toNat ∧ c.toNat < 128)
    (hnb : (pyStrip (line ++ ['\r', '\n'])).isEmpty = false)
    (hnoCL : matchContentLength (pyStrip (line ++ ['\r', '\n'])) = none) :
    read_message (utf8Encode (line ++ str "\r\n\r\n")) = .endOrMissing []
    ∧ read_message [] = .endOrMissing [] := by
  refine ⟨?_, rfl⟩
  have hall : ∀ c ∈ line ++ str "\r\n\r\n", c.toNat < 128 := by
    intro c hc
    rcases List.mem_append.mp hc with h | h
    · exact (hascii c h).2
    · have hall2 : ∀ x ∈ str "\r\n\r\n", x.toNat < 128 := by decide
      exact hall2 c h
  have henc : utf8Encode (line ++ str "\r\n\r\n")
      = line.map Char.toNat ++ 13 :: 10 :: 13 :: 10 :: ([] : List Nat) := by
    rw [utf8Encode_ascii _ hall]
    simp only [List.map_append]
    rfl
  have hB1 : ∀ b ∈ line.map Char.toNat, b ≠ 10 := by
    intro b hb
    obtain ⟨c, hc, rfl⟩ := List.mem_map.mp hb
    have := hascii c hc
    omega
  have hd1 : (line.map Char.toNat ++ [13]) ++ [10]
      = (line ++ ['\r', '\n']).map Char.toNat := by
    simp only [List.map_append, List.append_assoc]
    rfl
  have hasc2 : ∀ c ∈ line ++ ['\r', '\n'], c.toNat < 128 := by
    intro c hc
    rcases List.mem_append.mp hc with h | h
    · exact (hascii c h).2
    · have hall2 : ∀ x ∈ (['\r', '\n'] : Str), x.toNat < 128 := by decide
      exact hall2 c h
  rw [henc, read_message_def,
      readHeadersAux_no_lf _ hB1 none [] _, List.nil_append,
      readHeadersAux_cons, if_neg (by decide),
      readHeadersAux_cons, if_pos rfl,
      hd1, utf8Decode_ascii _ hasc2]
  dsimp only
  rw [if_neg (by rw [hnb]; exact Bool.false_ne_true), hnoCL]
  dsimp only
  rw [readHeadersAux_cons, if_neg (by decide), readHeadersAux_cons, if_pos rfl,
      show (([] : List Nat) ++ [13]) ++ [10] = (['\r', '\n'] : Str).map Char.toNat from rfl,
      utf8Decode_ascii _ (by decide)]
  dsimp only
  rw [show pyStrip ['\r', '\n'] = [] from rfl]
  rfl

theorem C4_missing_length_same_as_eof_witness :
    (∀ c ∈ str "X-Header: yes", 32 ≤ c.toNat ∧ c.toNat < 128) ∧
    (pyStrip (str "X-Header: yes" ++ ['\r', '\n'])).isEmpty = false ∧
    matchContentLength (pyStrip (str "X-Header: yes" ++ ['\r', '\n'])) = none ∧
    (read_message (utf8Encode (str "X-Header: yes" ++ str "\r\n\r\n")) = .endOrMissing []
      ∧ read_message [] = .endOrMissing []) :=
  ⟨by decide, by decide, by decide,
   C4_missing_length_same_as_eof (str "X-Header: yes") (by decide) (by decide) (by decide)⟩
